import Mathlib

/-!
Autonity oracle node: shallow embedding and checked properties.

The development embeds two Go source files:

* `oracle_server/oracle_server.go`: symbol set, price cache, collection cycle;
* `chain_adaptor/reporter.go`: the commit-reveal reporter.

Conventions of the embedding.

* A Go `map` is an association list holding at most one entry per key
  (`GoMap`); `m[k] = v` is `GoMap.set`, `v, ok := m[k]` is `GoMap.get?`,
  `len(m)` is `GoMap.len`.
* A Go slice is a `List`; the `nil` slice and the empty slice are both `[]`.
* `int64` values are integers, and `int64` subtraction is `sub64`, which wraps
  modulo `2^64` as Go does; `uint64` values are naturals, and `uint64`
  subtraction wraps modulo `2^64` (`usub64`).
* Calls to collaborators outside the two files (chain client, contract binding,
  clock, random source, plugins, median aggregator, Keccak-256) are read from an
  environment record that lists the outcome of each call.
* A method that mutates its receiver returns the receiver's new state.
* The loop of `Start` is `step`, one turn per received event, and `run` over a
  sequence of events.
-/

set_option linter.dupNamespace false

namespace AutonityOracle

/-! ## Go maps -/

/-- A Go map as an association list; the operations below keep at most one
entry per key. -/
abbrev GoMap (κ : Type) (ν : Type) := List (κ × ν)

namespace GoMap

variable {κ ν : Type} [DecidableEq κ]

/-- The lookup `v, ok := m[k]`. -/
def get? : GoMap κ ν → κ → Option ν
  | [], _ => none
  | (k', v) :: rest, k => if k' = k then some v else get? rest k

/-- The removal `delete(m, k)`. -/
def delete (m : GoMap κ ν) (k : κ) : GoMap κ ν :=
  m.filter (fun e => decide (e.1 ≠ k))

/-- The assignment `m[k] = v`. -/
def set (m : GoMap κ ν) (k : κ) (v : ν) : GoMap κ ν :=
  (k, v) :: delete m k

/-- The size `len(m)`. -/
def len (m : GoMap κ ν) : Nat := m.length

end GoMap

/-! ## Machine integers -/

/-- Reinterpretation of an integer as an `int64` (two's complement wrap). -/
def wrap64 (x : Int) : Int := (x + 2 ^ 63) % 2 ^ 64 - 2 ^ 63

/-- Go's `a - b` on `int64`. -/
def sub64 (a b : Int) : Int := wrap64 (a - b)

/-- Go's `a - b` on `uint64`. -/
def usub64 (a b : Nat) : Nat := (a + (2 ^ 64 - b % 2 ^ 64)) % 2 ^ 64

/-! ## shopspring/decimal, math/big and go-ethereum helpers -/

/-- A `decimal.Decimal`: the number `value * 10 ^ exp`. -/
structure Decimal where
  value : Int
  exp : Int
deriving DecidableEq, Repr

namespace Decimal

/-- The product `d.Mul(d2)`: coefficients multiply, exponents add. -/
def Mul (d d2 : Decimal) : Decimal := ⟨d.value * d2.value, d.exp + d2.exp⟩

/-- The integer part `d.BigInt()`: rescaling to exponent 0 multiplies by a
power of ten when `exp > 0` and takes the truncated quotient (`big.Int.Quo`)
when `exp < 0`. -/
def BigInt (d : Decimal) : Int :=
  if 0 ≤ d.exp then d.value * 10 ^ d.exp.toNat
  else Int.tdiv d.value (10 ^ (-d.exp).toNat)

/-- The rational number a decimal denotes. -/
def toRat (d : Decimal) : ℚ := (d.value : ℚ) * (10 : ℚ) ^ d.exp

end Decimal

/-- The constant `PricePrecision = decimal.RequireFromString("1000000000")`. -/
def PricePrecision : Decimal := ⟨1000000000, 0⟩

/-- Big-endian bytes of `n` without leading zeros, at most `fuel` of them. -/
def bytesBE : Nat → Nat → List Nat
  | 0, _ => []
  | fuel + 1, n => if n = 0 then [] else bytesBE fuel (n / 256) ++ [n % 256]

/-- The bytes `x.Bytes()` of a `big.Int`: the big-endian bytes of the absolute
value, empty for zero. -/
def bigBytes (x : Int) : List Nat := bytesBE x.natAbs x.natAbs

/-- The helper `common.LeftPadBytes(slice, l)`. -/
def LeftPadBytes (slice : List Nat) (l : Nat) : List Nat :=
  if l ≤ slice.length then slice
  else List.replicate (l - slice.length) 0 ++ slice

/-! ## Errors -/

/-- The error values: the two sentinels declared in `reporter.go`, and the
errors handed back by collaborators. -/
inductive Err where
  | ErrPeerOnSync
  | ErrNoAvailablePrice
  | external (msg : String)
deriving DecidableEq, Repr

/-! ## Types of the `types` package used by the two files -/

/-- Modelled from the spec: the record `types.Price` (its declaration is not
among the sources); the fields are the ones the two files read and write. -/
structure Price where
  Timestamp : Int
  Price : Decimal
  Symbol : String
deriving DecidableEq, Repr

/-- The map type `types.PriceBySymbol`. -/
abbrev PriceBySymbol := GoMap String Price

/-- Modelled from the spec: the sub-pool of one plugin, a map from symbol to
the latest price the plugin reported (package `price_pool` is not among the
sources); `GetPrice` fails exactly when the symbol has no entry. -/
abbrev SubPool := GoMap String Price

/-- Modelled from the spec: a plugin handle with the sub-pool it owns, which
is what `priceProviderPool.GetPriceProvider(plugin.Name())` yields. -/
structure PluginWrapper where
  name : String
  pool : SubPool
deriving DecidableEq, Repr

/-- The constant `ValidDataAge = 1 * 60 * 1000` (milliseconds). -/
def ValidDataAge : Int := 1 * 60 * 1000

/-! ## OracleServer -/

/-- The state of `OracleServer` the embedded methods touch. -/
structure OracleServer where
  prices : PriceBySymbol
  symbols : List String
  pluginWrappers : List PluginWrapper
deriving DecidableEq, Repr

namespace OracleServer

/-- The method `UpdateSymbols`: the membership map is built once from the
current symbols and never updated inside the second loop. -/
def UpdateSymbols (os : OracleServer) (newSymbols : List String) : OracleServer :=
  let symbolsMap : GoMap String Unit :=
    os.symbols.foldl (fun m s => GoMap.set m s ()) []
  { os with
    symbols := newSymbols.foldl
      (fun acc newS => if (GoMap.get? symbolsMap newS).isSome then acc else acc ++ [newS])
      os.symbols }

/-- The freshness test of the source:
`now-p.Timestamp < int64(ValidDataAge) && now >= p.Timestamp`. -/
def isValid (now : Int) (p : Price) : Bool :=
  decide (sub64 now p.Timestamp < ValidDataAge) && decide (now ≥ p.Timestamp)

/-- The method `GetPricesBySymbols` at clock reading `now`; the second
component is the server state after the call. -/
def GetPricesBySymbols (os : OracleServer) (now : Int) (symbols : List String) :
    PriceBySymbol × OracleServer :=
  (symbols.foldl
    (fun prices s =>
      match GoMap.get? os.prices s with
      | some p => if isValid now p then GoMap.set prices s p else prices
      | none => prices)
    [], os)

/-- The method `UpdatePrice`. -/
def UpdatePrice (os : OracleServer) (price : Price) : OracleServer :=
  { os with prices := GoMap.set os.prices price.Symbol price }

end OracleServer

/-- The collaborators of one collection cycle: what each plugin's `FetchPrices`
leaves in its sub-pool (its error is only logged), the clock reading taken
after the fetches, and the median aggregator. -/
structure CollectEnv where
  fetch : PluginWrapper → List String → SubPool
  now : Int
  median : List Decimal → Except Err Decimal

namespace OracleServer

/-- The inner loop of `UpdatePrices`: the prices of the plugins that hold a
fresh price for `s`, in the order the plugins are visited. -/
def collectPrices (now : Int) (wrappers : List PluginWrapper) (s : String) : List Decimal :=
  wrappers.foldl
    (fun prices plugin =>
      match GoMap.get? plugin.pool s with
      | none => prices
      | some p => if isValid now p then prices ++ [p.Price] else prices)
    []

/-- The body of the outer loop of `UpdatePrices` up to the cache write: the
entry to write for `s`, or `none` where the source says `continue`. -/
def aggregate (env : CollectEnv) (wrappers : List PluginWrapper) (s : String) : Option Price :=
  match collectPrices env.now wrappers s with
  | [] => none
  | p0 :: rest =>
    if (p0 :: rest).length > 1 then
      match env.median (p0 :: rest) with
      | .error _ => none
      | .ok p => some { Timestamp := env.now, Price := p, Symbol := s }
    else some { Timestamp := env.now, Price := p0, Symbol := s }

/-- One turn of the outer loop of `UpdatePrices`, for the symbol `s`. -/
def updateOne (env : CollectEnv) (os : OracleServer) (s : String) : OracleServer :=
  match aggregate env os.pluginWrappers s with
  | none => os
  | some price => os.UpdatePrice price

/-- The method `UpdatePrices`: every plugin fetches, then each symbol is
aggregated and written in turn. The list `pluginWrappers` stands for the map of
the source in the order `range` visits it. -/
def UpdatePrices (os : OracleServer) (env : CollectEnv) (symbols : List String) :
    OracleServer :=
  let os1 : OracleServer :=
    { os with
      pluginWrappers :=
        os.pluginWrappers.map (fun plugin => { plugin with pool := env.fetch plugin symbols }) }
  symbols.foldl (updateOne env) os1

end OracleServer

/-! ## Auxiliary definitions used to state the properties of `OracleServer` -/

namespace OracleServer

/-- The entry of the cache for `s` when it passes the freshness test. -/
def exposed (os : OracleServer) (now : Int) (s : String) : Option Price :=
  match GoMap.get? os.prices s with
  | some p => if isValid now p then some p else none
  | none => none

/-- The price a plugin contributes for `s`: the one in its sub-pool, when it
passes the freshness test. -/
def freshPrice (now : Int) (s : String) (w : PluginWrapper) : Option Decimal :=
  match GoMap.get? w.pool s with
  | none => none
  | some p => if isValid now p then some p.Price else none

/-- The timestamp of the freshest per-plugin price for `s`: the largest
timestamp among the sub-pool prices that pass the freshness test, `none` when
there is none. -/
def freshestTimestamp (now : Int) (wrappers : List PluginWrapper) (s : String) : Option Int :=
  (wrappers.filterMap (fun w =>
    match GoMap.get? w.pool s with
    | none => none
    | some p => if isValid now p then some p.Timestamp else none)).foldl
    (fun acc t =>
      match acc with
      | none => some t
      | some a => some (max a t))
    none

end OracleServer

/-! ## The reporter -/

/-- A 20-byte account address, as a number. -/
abbrev Address := Nat

/-- A `common.Hash`: 32 bytes. -/
abbrev Hash := List Nat

/-- An opaque transaction identifier (`*tp.Transaction`). -/
abbrev Tx := Nat

/-- The conversion `new(big.Int).SetBytes(b)`: the number the bytes denote,
big-endian. -/
def SetBytes (b : List Nat) : Nat := b.foldl (fun acc x => acc * 256 + x) 0

/-- The zero hash `common.Hash{}`. -/
def zeroHash : Hash := List.replicate 32 0

/-- Modelled from the spec: the record `types.RoundData` (its declaration is
not among the sources); `Tx` is `none` until the submission returns. -/
structure RoundData where
  Symbols : List String
  Salt : Nat
  Hash : Hash
  Prices : PriceBySymbol
  Tx : Option Tx
deriving DecidableEq, Repr

/-- The fields of `bind.TransactOpts` that `doReport` sets. -/
structure TransactOpts where
  Nonce : Int
  Value : Int
  GasLimit : Nat
  GasPrice : Nat
deriving DecidableEq, Repr

/-- One call of the contract method `Vote(auth, commitmentHash, votes, salt)`;
`salt = none` is the `nil` pointer. -/
structure VoteCall where
  auth : TransactOpts
  commitmentHash : Nat
  votes : List Int
  salt : Option Nat
deriving DecidableEq, Repr

/-- The outcomes of the collaborator calls made while one round-change event
is handled; each is called at most once per event. -/
structure ChainEnv where
  syncProgress : Except Err (Option Nat)
  getCommittee : Except Err (List Address)
  getSymbols : Except Err (List String)
  pendingNonceAt : Address → Except Err Nat
  suggestGasPrice : Except Err Nat
  chainID : Except Err Nat
  newKeyedTransactor : Nat → Except Err Unit
  vote : VoteCall → Except Err Tx
  nowMilli : Int
  randUint64 : Nat
  keccak256 : List Nat → Hash

/-- The state of `DataReporter` the embedded methods touch. -/
structure DataReporter where
  currentRound : Nat
  currentSymbols : List String
  roundData : GoMap Nat RoundData
  keyAddress : Address
  validatorAccount : Address
deriving DecidableEq, Repr

/-- What handling an event leaves behind: the reporter state, the returned
error (`none` is `nil`), and the `Vote` calls made, in order. -/
structure Outcome where
  dp : DataReporter
  err : Option Err
  calls : List VoteCall
deriving DecidableEq, Repr

/-- The conversion `int64(nonce)` of a `uint64`. -/
def toInt64 (n : Nat) : Int := wrap64 (n % 2 ^ 64 : Nat)

namespace DataReporter

/-- The method `isCommitteeMember`. -/
def isCommitteeMember (dp : DataReporter) (env : ChainEnv) : Except Err Bool :=
  match env.getCommittee with
  | .error e => .error e
  | .ok committee => .ok (committee.any (fun c => decide (c = dp.validatorAccount)))

/-- The first part of `doReport`: nonce, gas price and chain id are read, the
transactor is made and its fields are set. -/
def prepareAuth (dp : DataReporter) (env : ChainEnv) : Except Err TransactOpts :=
  match env.pendingNonceAt dp.keyAddress with
  | .error e => .error e
  | .ok nonce =>
    match env.suggestGasPrice with
    | .error e => .error e
    | .ok gasPrice =>
      match env.chainID with
      | .error e => .error e
      | .ok chainID =>
        match env.newKeyedTransactor chainID with
        | .error e => .error e
        | .ok _ =>
          .ok { Nonce := toInt64 nonce, Value := 0, GasLimit := 3000000, GasPrice := gasPrice }

/-- The loop of `doReport` that builds `votes` from the last round's data. -/
def revealVotes (lastRoundData : RoundData) : List Int :=
  lastRoundData.Symbols.foldl
    (fun votes s =>
      match GoMap.get? lastRoundData.Prices s with
      | none => votes ++ [0]
      | some p => votes ++ [(p.Price.Mul PricePrecision).BigInt])
    []

/-- The method `doReport`: the result of the submission and the `Vote` calls
made. -/
def doReport (dp : DataReporter) (env : ChainEnv) (curRndCommitHash : Hash)
    (lastRoundData : Option RoundData) : Except Err Tx × List VoteCall :=
  match prepareAuth dp env with
  | .error e => (.error e, [])
  | .ok auth =>
    match lastRoundData with
    | none =>
      let call : VoteCall := ⟨auth, SetBytes curRndCommitHash, [], none⟩
      (env.vote call, [call])
    | some last =>
      let call : VoteCall :=
        ⟨auth, SetBytes curRndCommitHash, revealVotes last, some last.Salt⟩
      (env.vote call, [call])

/-- The loop of `buildRoundData` that packs the prices into the hash source. -/
def packPrices (symbols : List String) (prices : PriceBySymbol) : List Nat :=
  symbols.foldl
    (fun source s =>
      match GoMap.get? prices s with
      | some pr => source ++ LeftPadBytes (bigBytes (pr.Price.Mul PricePrecision).BigInt) 32
      | none => source ++ LeftPadBytes (bigBytes 0) 32)
    []

/-- The method `buildRoundData`, reading the price cache of the oracle service
`os`; the salt is the `uint64` drawn from the random source. -/
def buildRoundData (env : ChainEnv) (os : OracleServer) : Except Err RoundData :=
  match env.getSymbols with
  | .error e => .error e
  | .ok symbols =>
    let prices := (os.GetPricesBySymbols env.nowMilli symbols).1
    if GoMap.len prices = 0 then .error Err.ErrNoAvailablePrice
    else
      let salt : Nat := env.randUint64 % 2 ^ 64
      let source := packPrices symbols prices ++ LeftPadBytes (bigBytes (salt : Int)) 32
      .ok { Symbols := symbols, Salt := salt, Hash := env.keccak256 source,
            Prices := prices, Tx := none }

/-- The method `reportWithCommitment`. -/
def reportWithCommitment (dp : DataReporter) (env : ChainEnv) (os : OracleServer)
    (newRound : Nat) (lastRoundData : Option RoundData) : Outcome :=
  match buildRoundData env os with
  | .error e => ⟨dp, some e, []⟩
  | .ok curRoundData =>
    match doReport dp env curRoundData.Hash lastRoundData with
    | (.error e, calls) => ⟨dp, some e, calls⟩
    | (.ok tx, calls) =>
      ⟨{ dp with roundData := GoMap.set dp.roundData newRound { curRoundData with Tx := some tx } },
        none, calls⟩

/-- The method `reportWithoutCommitment`. -/
def reportWithoutCommitment (dp : DataReporter) (env : ChainEnv)
    (lastRoundData : Option RoundData) : Outcome :=
  match doReport dp env zeroHash lastRoundData with
  | (.error e, calls) => ⟨dp, some e, calls⟩
  | (.ok _, calls) => ⟨dp, none, calls⟩

/-- The method `handleRoundChangeEvent`. -/
def handleRoundChangeEvent (dp : DataReporter) (env : ChainEnv) (os : OracleServer)
    (newRound : Nat) : Outcome :=
  let dp : DataReporter := { dp with currentRound := newRound }
  match env.syncProgress with
  | .error e => ⟨dp, some e, []⟩
  | .ok (some _) => ⟨dp, some Err.ErrPeerOnSync, []⟩
  | .ok none =>
    match isCommitteeMember dp env with
    | .error e => ⟨dp, some e, []⟩
    | .ok isCommittee =>
      let lastRoundData := GoMap.get? dp.roundData (usub64 newRound 1)
      if !isCommittee && lastRoundData.isNone then ⟨dp, none, []⟩
      else if isCommittee then reportWithCommitment dp env os newRound lastRoundData
      else reportWithoutCommitment dp env lastRoundData

end DataReporter

/-! ## The reporter's event loop -/

/-- The constant `MaxBufferedRounds`. -/
def MaxBufferedRounds : Nat := 10

/-- The outcomes of the collaborator calls made during one health check:
`BlockNumber`, and, when the connection is rebuilt, `Dial`, `NewOracle`,
`GetRound`, `GetSymbols` and the two subscriptions. -/
structure HealthEnv where
  blockNumber : Except Err Nat
  dial : Except Err Unit
  newOracle : Except Err Unit
  getRound : Except Err Nat
  getSymbols : Except Err (List String)
  watchUpdatedRound : Except Err Unit
  watchUpdatedSymbols : Except Err Unit

namespace DataReporter

/-- The method `gcRoundData`: once the buffer holds `MaxBufferedRounds`
entries, every key is visited and deleted when it is at most
`currentRound - MaxBufferedRounds`, a `uint64` subtraction. -/
def gcRoundData (dp : DataReporter) : DataReporter :=
  if GoMap.len dp.roundData ≥ MaxBufferedRounds then
    let offset := usub64 dp.currentRound MaxBufferedRounds
    { dp with
      roundData :=
        (dp.roundData.map Prod.fst).foldl
          (fun m k => if k ≤ offset then GoMap.delete m k else m)
          dp.roundData }
  else dp

/-- The function `getStartingStates`: on an error it returns round 0 and no
symbols along with the error; the round is `currentRound.Uint64()`. -/
def getStartingStates (env : HealthEnv) : Nat × List String × Option Err :=
  match env.getRound with
  | .error e => (0, [], some e)
  | .ok currentRound =>
    match env.getSymbols with
    | .error e => (0, [], some e)
    | .ok symbols => (currentRound % 2 ^ 64, symbols, none)

/-- The method `buildConnection`: the round and the symbols are assigned from
`getStartingStates` before its error is looked at. The second component is the
oracle service after the call. -/
def buildConnection (dp : DataReporter) (os : OracleServer) (env : HealthEnv) :
    DataReporter × OracleServer × Option Err :=
  match env.dial with
  | .error e => (dp, os, some e)
  | .ok _ =>
    match env.newOracle with
    | .error e => (dp, os, some e)
    | .ok _ =>
      let dp : DataReporter :=
        { dp with
          currentRound := (getStartingStates env).1
          currentSymbols := (getStartingStates env).2.1 }
      match (getStartingStates env).2.2 with
      | some e => (dp, os, some e)
      | none =>
        let os := if dp.currentSymbols.length > 0 then os.UpdateSymbols dp.currentSymbols else os
        match env.watchUpdatedRound with
        | .error e => (dp, os, some e)
        | .ok _ =>
          match env.watchUpdatedSymbols with
          | .error e => (dp, os, some e)
          | .ok _ => (dp, os, none)

/-- The method `checkHealth`: nothing changes when `BlockNumber` answers;
otherwise the connection is rebuilt and its error is only logged. -/
def checkHealth (dp : DataReporter) (os : OracleServer) (env : HealthEnv) :
    DataReporter × OracleServer :=
  match env.blockNumber with
  | .ok _ => (dp, os)
  | .error _ => ((buildConnection dp os env).1, (buildConnection dp os env).2.1)

/-- The method `handleNewSymbolsEvent`. -/
def handleNewSymbolsEvent (dp : DataReporter) (os : OracleServer) (symbols : List String) :
    DataReporter × OracleServer :=
  ({ dp with currentSymbols := symbols }, os.UpdateSymbols symbols)

end DataReporter

/-- What the `select` of `Start` can receive. The oracle service runs beside
the reporter, so each event carries the state the service is in when the event
is handled. -/
inductive Event where
  | subSymbolsErr
  | subRoundErr
  | roundEvent (round : Nat) (env : ChainEnv) (os : OracleServer)
  | symbolsEvent (symbols : List String) (os : OracleServer)
  | liveTick (env : HealthEnv) (os : OracleServer)

/-- One turn of the loop of `Start`, on the reporter state; the round of a
round event is `round.Round.Uint64()`. -/
def step (dp : DataReporter) : Event → DataReporter
  | .subSymbolsErr => dp
  | .subRoundErr => dp
  | .roundEvent round env os => (dp.handleRoundChangeEvent env os (round % 2 ^ 64)).dp
  | .symbolsEvent symbols os => (dp.handleNewSymbolsEvent os symbols).1
  | .liveTick env os => (dp.checkHealth os env).1.gcRoundData

/-- The loop of `Start` over a sequence of events. -/
def run (dp : DataReporter) (events : List Event) : DataReporter :=
  events.foldl step dp

/-- The buffer holds one entry per key, no key is ahead of the current round,
and the current round is a `uint64`. -/
def bufferInOrder (dp : DataReporter) : Prop :=
  (dp.roundData.map Prod.fst).Nodup ∧ (∀ e ∈ dp.roundData, e.1 ≤ dp.currentRound) ∧
    dp.currentRound < 2 ^ 64

/-- The current round never goes back along the run. -/
def roundsAdvance (dp : DataReporter) : List Event → Prop
  | [] => True
  | e :: es => dp.currentRound ≤ (step dp e).currentRound ∧ roundsAdvance (step dp e) es

/-- The number of round events handled since the last live tick. -/
def sinceTick (events : List Event) : Nat :=
  events.foldl
    (fun k e =>
      match e with
      | .roundEvent _ _ _ => k + 1
      | .liveTick _ _ => 0
      | _ => k)
    0

/-! ## The commitment and the votes as the specification words them -/

/-- The `k`-byte big-endian encoding of `n`. -/
def encodeBE : Nat → Nat → List Nat
  | 0, _ => []
  | k + 1, n => encodeBE k (n / 256) ++ [n % 256]

/-- The integer `floor(price × 10⁹)` carried on-chain. -/
def scaledPrice (d : Decimal) : Int := ⌊d.toRat * 1000000000⌋

/-- The commitment preimage of the specification: for each symbol in order the
32-byte big-endian encoding of `price × 10⁹`, or 32 zero bytes when the symbol
has no price, followed by the 32-byte big-endian encoding of the salt. -/
def commitmentPreimage (symbols : List String) (prices : PriceBySymbol) (salt : Nat) :
    List Nat :=
  (symbols.map (fun s =>
    match GoMap.get? prices s with
    | some p => encodeBE 32 (scaledPrice p.Price).toNat
    | none => List.replicate 32 0)).flatten ++ encodeBE 32 salt

/-- The votes of the specification: one entry per symbol in order,
`floor(price × 10⁹)` when the symbol has a price and 0 when it has none. -/
def specVotes (symbols : List String) (prices : PriceBySymbol) : List Int :=
  symbols.map (fun s =>
    match GoMap.get? prices s with
    | some p => scaledPrice p.Price
    | none => 0)

/-! ## Sample data for the concrete instances below -/

/-- A price of 30000 for `BTCUSD`, stamped at millisecond 1000. -/
def samplePrice : Price := ⟨1000, ⟨30000, 0⟩, "BTCUSD"⟩

/-- An oracle service whose cache holds `samplePrice`. -/
def sampleOracle : OracleServer := ⟨[("BTCUSD", samplePrice)], ["BTCUSD"], []⟩

/-- An oracle service with an empty cache. -/
def emptyOracle : OracleServer := ⟨[], ["BTCUSD"], []⟩

/-- A chain environment in which every call succeeds: the node is not syncing,
account 7 is in the committee, the contract lists `BTCUSD` and `ETHUSD`, the
clock reads millisecond 2000, and `Vote` returns transaction 99. -/
def sampleEnv : ChainEnv where
  syncProgress := .ok none
  getCommittee := .ok [3, 7]
  getSymbols := .ok ["BTCUSD", "ETHUSD"]
  pendingNonceAt := fun _ => .ok 4
  suggestGasPrice := .ok 1000
  chainID := .ok 65100000
  newKeyedTransactor := fun _ => .ok ()
  vote := fun _ => .ok 99
  nowMilli := 2000
  randUint64 := 12345
  keccak256 := fun bytes => [bytes.length]

/-- As `sampleEnv`, with the pending-nonce read failing. -/
def nonceFailEnv : ChainEnv :=
  { sampleEnv with pendingNonceAt := fun _ => .error (Err.external "connection lost") }

/-- As `sampleEnv`, with the node still syncing. -/
def syncingEnv : ChainEnv := { sampleEnv with syncProgress := .ok (some 1) }

/-- As `sampleEnv`, with a committee that does not hold account 7. -/
def outsiderEnv : ChainEnv := { sampleEnv with getCommittee := .ok [3, 5] }

/-- As `outsiderEnv`, with the pending-nonce read failing. -/
def outsiderNonceFailEnv : ChainEnv :=
  { outsiderEnv with pendingNonceAt := fun _ => .error (Err.external "connection lost") }

/-- The data of a round whose only symbol `BTCUSD` has `samplePrice`. -/
def sampleRound : RoundData :=
  ⟨["BTCUSD", "ETHUSD"], 5, zeroHash, [("BTCUSD", samplePrice)], some 98⟩

/-- A reporter for validator 7 at round 7 with an empty buffer. -/
def freshReporter : DataReporter := ⟨7, ["BTCUSD", "ETHUSD"], [], 7, 7⟩

/-- A reporter for validator 7 at round 7 whose buffer holds round 7. -/
def sampleReporter : DataReporter := ⟨7, ["BTCUSD", "ETHUSD"], [(7, sampleRound)], 7, 7⟩

/-- A collection environment with a single plugin answer. -/
def sampleCollectEnv : CollectEnv where
  fetch := fun _ _ => [("BTCUSD", samplePrice)]
  now := 2000
  median := fun _ => .error (Err.external "not used")

/-- A reporter for validator 7 that has not handled any round yet. -/
def startReporter : DataReporter := ⟨0, ["BTCUSD", "ETHUSD"], [], 7, 7⟩

/-- A health check that finds the connection alive. -/
def healthyEnv : HealthEnv where
  blockNumber := .ok 100
  dial := .ok ()
  newOracle := .ok ()
  getRound := .ok 0
  getSymbols := .ok []
  watchUpdatedRound := .ok ()
  watchUpdatedSymbols := .ok ()

/-- A health check that finds the connection lost, dials again, and fails to
read the round from the contract. -/
def lostRoundEnv : HealthEnv :=
  { healthyEnv with
    blockNumber := .error (Err.external "connection lost")
    getRound := .error (Err.external "connection lost") }

/-- The round events of rounds `1..n`, each handled as a committee member with
prices at hand, and no live tick between them. -/
def committeeRun (n : Nat) : List Event :=
  (List.range n).map (fun i => Event.roundEvent (i + 1) sampleEnv sampleOracle)

/-- Round 1 handled as a committee member, rounds `2..12` handled outside the
committee, a live tick after every round event. -/
def outsiderRun : List Event :=
  [Event.roundEvent 1 sampleEnv sampleOracle, Event.liveTick healthyEnv sampleOracle] ++
    ((List.range 11).map (fun i =>
      [Event.roundEvent (i + 2) outsiderEnv sampleOracle,
        Event.liveTick healthyEnv sampleOracle])).flatten

/-- A buffer holding the ten rounds `first .. first + 9`. -/
def fullBuffer (first : Nat) : GoMap Nat RoundData :=
  (List.range 10).map (fun i => (first + i, sampleRound))

/-! ## Facts about Go maps -/

namespace GoMap

variable {κ ν : Type} [DecidableEq κ]

theorem get?_delete (m : GoMap κ ν) (k k' : κ) :
    get? (delete m k) k' = if k = k' then none else get? m k' := by
  induction m with
  | nil => simp [delete, get?]
  | cons e rest ih =>
    obtain ⟨a, v⟩ := e
    have ih' : get? (List.filter (fun e => decide (e.1 ≠ k)) rest) k' =
        if k = k' then none else get? rest k' := ih
    show get? (List.filter (fun e => decide (e.1 ≠ k)) ((a, v) :: rest)) k' = _
    rw [List.filter_cons]
    by_cases hak : a = k
    · subst hak
      simp only [ne_eq, not_true_eq_false, decide_False, Bool.false_eq_true, if_false, ih']
      by_cases hk : a = k' <;> simp [get?, hk]
    · simp only [ne_eq, hak, not_false_eq_true, decide_True, if_true]
      by_cases hak' : a = k'
      · have hk : ¬ k = k' := fun e => hak (hak'.trans e.symm)
        simp [get?, hak', hk]
      · simp only [get?, hak', if_false, ih']

theorem get?_set (m : GoMap κ ν) (k k' : κ) (v : ν) :
    get? (set m k v) k' = if k = k' then some v else get? m k' := by
  by_cases hk : k = k'
  · simp [set, get?, hk]
  · simp [set, get?, hk, get?_delete]

theorem get?_set_self (m : GoMap κ ν) (k : κ) (v : ν) :
    get? (set m k v) k = some v := by
  simp [get?_set]

theorem get?_set_ne (m : GoMap κ ν) {k k' : κ} (v : ν) (h : k ≠ k') :
    get? (set m k v) k' = get? m k' := by
  simp [get?_set, h]

end GoMap

/-! ## Facts about `UpdateSymbols` -/

namespace OracleServer

/-- The membership map built by the first loop holds exactly the folded keys. -/
theorem symbolsMap_isSome (L : List String) (m0 : GoMap String Unit) (s : String) :
    (GoMap.get? (L.foldl (fun m x => GoMap.set m x ()) m0) s).isSome =
      (decide (s ∈ L) || (GoMap.get? m0 s).isSome) := by
  induction L generalizing m0 with
  | nil => simp
  | cons a L ih =>
    rw [List.foldl_cons, ih, GoMap.get?_set]
    by_cases h : a = s
    · simp [h]
    · have h' : ¬ s = a := fun e => h e.symm
      simp [h, h']

/-- The second loop appends, in order, the inputs the test lets through. -/
theorem foldl_append_filter (t : String → Bool) (N acc : List String) :
    N.foldl (fun acc newS => if t newS then acc else acc ++ [newS]) acc =
      acc ++ N.filter (fun s => !t s) := by
  induction N generalizing acc with
  | nil => simp
  | cons a N ih =>
    rw [List.foldl_cons, ih]
    by_cases h : t a <;> simp [h]

theorem UpdateSymbols_symbols (os : OracleServer) (N : List String) :
    (UpdateSymbols os N).symbols =
      os.symbols ++ N.filter (fun s => decide (s ∉ os.symbols)) := by
  unfold UpdateSymbols
  simp only [foldl_append_filter]
  congr 1
  apply List.filter_congr
  intro s _
  rw [symbolsMap_isSome]
  simp [GoMap.get?]

end OracleServer

/-! ## Facts about machine subtraction and `GetPricesBySymbols` -/

theorem wrap64_of_range (x : Int) (h1 : -2 ^ 63 ≤ x) (h2 : x < 2 ^ 63) : wrap64 x = x := by
  unfold wrap64
  rw [Int.emod_eq_of_lt (by omega) (by omega)]
  omega

theorem sub64_of_le (a b : Int) (h1 : b ≤ a) (h2 : a - b < 2 ^ 63) : sub64 a b = a - b :=
  wrap64_of_range _ (by omega) h2

namespace OracleServer

theorem GetPricesBySymbols_fold (os : OracleServer) (now : Int) (L : List String)
    (acc : PriceBySymbol) (s : String) :
    GoMap.get? (L.foldl
      (fun prices s =>
        match GoMap.get? os.prices s with
        | some p => if isValid now p then GoMap.set prices s p else prices
        | none => prices) acc) s =
      if s ∈ L ∧ (exposed os now s).isSome then exposed os now s else GoMap.get? acc s := by
  induction L generalizing acc with
  | nil => simp
  | cons a L ih =>
    rw [List.foldl_cons, ih]
    by_cases hs : s ∈ L ∧ (exposed os now s).isSome
    · have : s ∈ a :: L ∧ (exposed os now s).isSome := ⟨List.mem_cons_of_mem _ hs.1, hs.2⟩
      rw [if_pos hs, if_pos this]
    · rw [if_neg hs]
      by_cases has : a = s
      · subst has
        cases hc : GoMap.get? os.prices a with
        | none => simp [exposed, hc]
        | some p =>
          by_cases hv : isValid now p = true
          · simp [exposed, hc, hv, GoMap.get?_set_self]
          · simp [exposed, hc, hv]
      · have hne : ¬ s = a := fun e => has e.symm
        have hs' : ¬ (s ∈ a :: L ∧ (exposed os now s).isSome) := by
          rintro ⟨hm, hv⟩
          rcases List.mem_cons.1 hm with e | hm
          · exact hne e
          · exact hs ⟨hm, hv⟩
        rw [if_neg hs']
        cases hc : GoMap.get? os.prices a with
        | none => rfl
        | some p =>
          by_cases hv : isValid now p = true
          · simp only [hv, if_true]
            exact GoMap.get?_set_ne _ _ has
          · simp [hv]

theorem GetPricesBySymbols_get? (os : OracleServer) (now : Int) (subset : List String)
    (s : String) :
    GoMap.get? (GetPricesBySymbols os now subset).1 s =
      if s ∈ subset then exposed os now s else none := by
  unfold GetPricesBySymbols
  rw [GetPricesBySymbols_fold]
  by_cases hs : s ∈ subset
  · cases he : exposed os now s <;> simp [hs, GoMap.get?]
  · simp [hs, GoMap.get?]

theorem isValid_iff (now : Int) (p : Price) :
    isValid now p = true ↔ p.Timestamp ≤ now ∧ sub64 now p.Timestamp < ValidDataAge := by
  simp [isValid, and_comm]

end OracleServer

/-! ## Checked properties of `OracleServer` -/

/-- C7: at clock reading `now`, `GetPricesBySymbols subset` returns a map that
holds `s` exactly when `s` is in `subset`, the cache holds an entry `p` for `s`,
`p.Timestamp <= now` and `now - p.Timestamp < ValidDataAge` (the subtraction
being the `int64` subtraction of the source), and the returned entry is the
cached one; `ValidDataAge` is 60000; an entry stamped `now - ValidDataAge` is
dropped, one stamped `now - ValidDataAge + 1` is kept, one stamped after `now`
is dropped; the server state, cache included, is left as it was. Whenever
`now - p.Timestamp` fits in an `int64` the subtraction is the one of the
integers. -/
theorem GetPricesBySymbols_spec (os : OracleServer) (now : Int) (subset : List String)
    (s : String) :
    (∀ p : Price, GoMap.get? (os.GetPricesBySymbols now subset).1 s = some p ↔
      (s ∈ subset ∧ GoMap.get? os.prices s = some p ∧ p.Timestamp ≤ now ∧
        sub64 now p.Timestamp < ValidDataAge)) ∧
    (∀ p : Price, now - p.Timestamp < 2 ^ 63 →
      (GoMap.get? (os.GetPricesBySymbols now subset).1 s = some p ↔
        (s ∈ subset ∧ GoMap.get? os.prices s = some p ∧ p.Timestamp ≤ now ∧
          now - p.Timestamp < ValidDataAge))) ∧
    ValidDataAge = 60000 ∧
    (∀ p : Price, GoMap.get? os.prices s = some p → p.Timestamp = now - ValidDataAge →
      GoMap.get? (os.GetPricesBySymbols now subset).1 s = none) ∧
    (∀ p : Price, s ∈ subset → GoMap.get? os.prices s = some p →
      p.Timestamp = now - ValidDataAge + 1 →
      GoMap.get? (os.GetPricesBySymbols now subset).1 s = some p) ∧
    (∀ p : Price, GoMap.get? os.prices s = some p → now < p.Timestamp →
      GoMap.get? (os.GetPricesBySymbols now subset).1 s = none) ∧
    (os.GetPricesBySymbols now subset).2 = os := by
  have key : ∀ p : Price, GoMap.get? (os.GetPricesBySymbols now subset).1 s = some p ↔
      (s ∈ subset ∧ GoMap.get? os.prices s = some p ∧ p.Timestamp ≤ now ∧
        sub64 now p.Timestamp < ValidDataAge) := by
    intro p
    rw [OracleServer.GetPricesBySymbols_get?]
    by_cases hs : s ∈ subset
    · simp only [hs, if_true, true_and, OracleServer.exposed]
      cases hc : GoMap.get? os.prices s with
      | none => simp
      | some q =>
        by_cases hv : OracleServer.isValid now q = true
        · have hv' := (OracleServer.isValid_iff now q).1 hv
          simp only [hv, if_true, Option.some.injEq]
          constructor
          · intro e; subst e; exact ⟨rfl, hv'⟩
          · intro h; exact h.1
        · simp only [hv, if_false, Option.some.injEq]
          constructor
          · intro h; cases h
          · rintro ⟨e, h⟩
            subst e
            exact absurd ((OracleServer.isValid_iff now q).2 h) hv
    · simp [hs]
  refine ⟨key, ?_, by decide, ?_, ?_, ?_, rfl⟩
  · intro p hrange
    rw [key p]
    constructor
    · rintro ⟨h1, h2, h3, h4⟩
      rw [sub64_of_le _ _ h3 hrange] at h4
      exact ⟨h1, h2, h3, h4⟩
    · rintro ⟨h1, h2, h3, h4⟩
      refine ⟨h1, h2, h3, ?_⟩
      rw [sub64_of_le _ _ h3 hrange]
      exact h4
  · intro p hc ht
    cases hr : GoMap.get? (os.GetPricesBySymbols now subset).1 s with
    | none => rfl
    | some q =>
      obtain ⟨_, hq, _, hlt⟩ := (key q).1 hr
      rw [hc] at hq
      cases hq
      have h60 : sub64 now p.Timestamp = 60000 := by
        rw [ht]
        unfold sub64 ValidDataAge
        have : now - (now - 1 * 60 * 1000) = 60000 := by ring
        rw [this]
        decide
      rw [h60] at hlt
      exact absurd hlt (by decide)
  · intro p hs hc ht
    refine (key p).2 ⟨hs, hc, ?_, ?_⟩
    · rw [ht]; unfold ValidDataAge; omega
    · rw [ht]
      unfold sub64 ValidDataAge
      have : now - (now - 1 * 60 * 1000 + 1) = 59999 := by ring
      rw [this]
      decide
  · intro p hc ht
    cases hr : GoMap.get? (os.GetPricesBySymbols now subset).1 s with
    | none => rfl
    | some q =>
      obtain ⟨_, hq, hle, _⟩ := (key q).1 hr
      rw [hc] at hq
      cases hq
      omega

/-- Witness of `GetPricesBySymbols_spec`: an entry stamped one millisecond
inside the validity window is returned. -/
theorem GetPricesBySymbols_spec_witness :
    GoMap.get?
      (OracleServer.GetPricesBySymbols
        ⟨[("BTCUSD", ⟨40001, ⟨30000, 0⟩, "BTCUSD"⟩)], ["BTCUSD"], []⟩ 100000 ["BTCUSD"]).1
      "BTCUSD" = some ⟨40001, ⟨30000, 0⟩, "BTCUSD"⟩ :=
  (GetPricesBySymbols_spec
    ⟨[("BTCUSD", ⟨40001, ⟨30000, 0⟩, "BTCUSD"⟩)], ["BTCUSD"], []⟩ 100000 ["BTCUSD"]
    "BTCUSD").2.2.2.2.1 ⟨40001, ⟨30000, 0⟩, "BTCUSD"⟩ (by decide) (by decide) (by decide)

/-- C8: `UpdateSymbols N` leaves the list `L` followed by the symbols of `N`
that do not occur in `L`, in the order they occur in `N`: `L` is an initial
segment of the result, every symbol of `N` occurs in the result, every symbol
of the result comes from `L` or `N`, the state is unchanged when every symbol
of `N` already occurs in `L`, and a second `UpdateSymbols N` changes nothing. -/
theorem UpdateSymbols_spec (os : OracleServer) (N : List String) :
    (os.UpdateSymbols N).symbols =
      os.symbols ++ N.filter (fun s => decide (s ∉ os.symbols)) ∧
    os.symbols <+: (os.UpdateSymbols N).symbols ∧
    (∀ s ∈ N, s ∈ (os.UpdateSymbols N).symbols) ∧
    (∀ s ∈ (os.UpdateSymbols N).symbols, s ∈ os.symbols ∨ s ∈ N) ∧
    ((∀ s ∈ N, s ∈ os.symbols) → os.UpdateSymbols N = os) ∧
    (os.UpdateSymbols N).UpdateSymbols N = os.UpdateSymbols N := by
  have hsym := OracleServer.UpdateSymbols_symbols
  have hrest : ∀ (o : OracleServer) (M : List String),
      (o.UpdateSymbols M).prices = o.prices ∧
      (o.UpdateSymbols M).pluginWrappers = o.pluginWrappers := fun _ _ => ⟨rfl, rfl⟩
  have hmem : ∀ s ∈ N, s ∈ (os.UpdateSymbols N).symbols := by
    intro s hs
    rw [hsym]
    by_cases h : s ∈ os.symbols
    · exact List.mem_append_left _ h
    · exact List.mem_append_right _ (List.mem_filter.2 ⟨hs, by simpa using h⟩)
  have hsame : ∀ (o : OracleServer) (M : List String),
      (∀ s ∈ M, s ∈ o.symbols) → o.UpdateSymbols M = o := by
    intro o M h
    have h1 : (o.UpdateSymbols M).symbols = o.symbols := by
      rw [hsym]
      have : M.filter (fun s => decide (s ∉ o.symbols)) = [] := by
        rw [List.filter_eq_nil_iff]
        intro s hs
        simpa using h s hs
      rw [this, List.append_nil]
    obtain ⟨h2, h3⟩ := hrest o M
    cases o
    cases hu : OracleServer.UpdateSymbols _ M
    rw [hu] at h1 h2 h3
    simp only at h1 h2 h3
    subst h1 h2 h3
    rfl
  refine ⟨hsym os N, ⟨_, (hsym os N).symm⟩, hmem, ?_, hsame os N, hsame _ N hmem⟩
  intro s hs
  rw [hsym] at hs
  rcases List.mem_append.1 hs with h | h
  · exact Or.inl h
  · exact Or.inr (List.mem_filter.1 h).1

/-- Witness of `UpdateSymbols_spec`: re-sending symbols already held changes
nothing. -/
theorem UpdateSymbols_spec_witness :
    OracleServer.UpdateSymbols ⟨[], ["BTCUSD", "ETHUSD"], []⟩ ["ETHUSD", "BTCUSD"] =
      ⟨[], ["BTCUSD", "ETHUSD"], []⟩ :=
  (UpdateSymbols_spec ⟨[], ["BTCUSD", "ETHUSD"], []⟩ ["ETHUSD", "BTCUSD"]).2.2.2.2.1
    (by decide)

/-- C9 (the code at the failing input): from the empty, duplicate-free symbol
list, one `UpdateSymbols` call whose input names the new symbol `BTCUSD` twice
leaves a list that holds `BTCUSD` twice, so the list is not duplicate-free. -/
theorem UpdateSymbols_repeated_input :
    (OracleServer.UpdateSymbols ⟨[], [], []⟩ ["BTCUSD", "BTCUSD"]).symbols =
      ["BTCUSD", "BTCUSD"] ∧
    List.count "BTCUSD"
      (OracleServer.UpdateSymbols ⟨[], [], []⟩ ["BTCUSD", "BTCUSD"]).symbols = 2 ∧
    ¬ (OracleServer.UpdateSymbols ⟨[], [], []⟩ ["BTCUSD", "BTCUSD"]).symbols.Nodup := by
  decide

/-! ## Facts about `UpdatePrices` -/

namespace OracleServer

theorem collectPrices_fold (now : Int) (s : String) (ws : List PluginWrapper)
    (acc : List Decimal) :
    ws.foldl
      (fun prices plugin =>
        match GoMap.get? plugin.pool s with
        | none => prices
        | some p => if isValid now p then prices ++ [p.Price] else prices) acc =
      acc ++ ws.filterMap (freshPrice now s) := by
  induction ws generalizing acc with
  | nil => simp
  | cons w ws ih =>
    rw [List.foldl_cons, ih, List.filterMap_cons]
    cases hc : GoMap.get? w.pool s with
    | none => simp [freshPrice, hc]
    | some p =>
      by_cases hv : isValid now p = true
      · simp [freshPrice, hc, hv]
      · simp [freshPrice, hc, hv]

theorem collectPrices_eq (now : Int) (s : String) (ws : List PluginWrapper) :
    collectPrices now ws s = ws.filterMap (freshPrice now s) := by
  unfold collectPrices
  rw [collectPrices_fold]
  rfl

theorem filterMap_freshPrice_nil (now : Int) (s : String) (ws : List PluginWrapper)
    (h : ∀ w ∈ ws, ∀ p, GoMap.get? w.pool s = some p →
      ¬ (p.Timestamp ≤ now ∧ sub64 now p.Timestamp < ValidDataAge)) :
    ws.filterMap (freshPrice now s) = [] := by
  rw [List.filterMap_eq_nil_iff]
  intro w hw
  unfold freshPrice
  cases hc : GoMap.get? w.pool s with
  | none => rfl
  | some p =>
    have hv : ¬ isValid now p = true := fun hv => h w hw p hc ((isValid_iff now p).1 hv)
    simp [hv]

theorem aggregate_symbol (env : CollectEnv) (ws : List PluginWrapper) (s : String)
    (e : Price) (h : aggregate env ws s = some e) : e.Symbol = s := by
  unfold aggregate at h
  split at h
  · cases h
  · split at h
    · split at h
      · cases h
      · cases h; rfl
    · cases h; rfl

theorem updateOne_pluginWrappers (env : CollectEnv) (os : OracleServer) (s : String) :
    (updateOne env os s).pluginWrappers = os.pluginWrappers := by
  unfold updateOne
  split <;> rfl

theorem updateOne_get? (env : CollectEnv) (os : OracleServer) (s' s : String) :
    GoMap.get? (updateOne env os s').prices s =
      if s' = s then
        (match aggregate env os.pluginWrappers s with
          | some e => some e
          | none => GoMap.get? os.prices s)
      else GoMap.get? os.prices s := by
  unfold updateOne
  by_cases h : s' = s
  · subst h
    rw [if_pos rfl]
    cases ha : aggregate env os.pluginWrappers s' with
    | none => rfl
    | some e =>
      have := aggregate_symbol env _ _ _ ha
      simp only [UpdatePrice, this]
      exact GoMap.get?_set_self _ _ _
  · rw [if_neg h]
    cases ha : aggregate env os.pluginWrappers s' with
    | none => rfl
    | some e =>
      have hsym := aggregate_symbol env _ _ _ ha
      simp only [UpdatePrice, hsym]
      exact GoMap.get?_set_ne _ _ h

theorem foldl_updateOne (env : CollectEnv) (L : List String) (os : OracleServer) (s : String) :
    (L.foldl (updateOne env) os).pluginWrappers = os.pluginWrappers ∧
    GoMap.get? (L.foldl (updateOne env) os).prices s =
      if s ∈ L then
        (match aggregate env os.pluginWrappers s with
          | some e => some e
          | none => GoMap.get? os.prices s)
      else GoMap.get? os.prices s := by
  induction L generalizing os with
  | nil => simp
  | cons a L ih =>
    rw [List.foldl_cons]
    obtain ⟨ih1, ih2⟩ := ih (updateOne env os a)
    refine ⟨by rw [ih1, updateOne_pluginWrappers], ?_⟩
    rw [ih2, updateOne_pluginWrappers, updateOne_get?]
    by_cases has : a = s
    · subst has
      cases ha : aggregate env os.pluginWrappers a <;> simp
    · have hne : ¬ s = a := fun e => has e.symm
      simp [has, hne]

end OracleServer

/-- C10: in one collection cycle `UpdatePrices symbols` (the sub-pools being
the ones the plugin fetches leave behind), for a symbol `s`: if no plugin's
sub-pool holds a fresh price for `s` (fresh: `timestamp <= now` and
`now - timestamp < ValidDataAge`, with the `int64` subtraction of the source),
the cache entry for `s`, or its absence, is the same after the cycle as
before; if `s` is in the argument and exactly one plugin holds a fresh price
for `s`, the cache entry for `s` after the cycle carries that plugin's price
value unchanged. -/
theorem UpdatePrices_spec (os : OracleServer) (env : CollectEnv) (symbols : List String)
    (s : String) :
    (os.UpdatePrices env symbols).pluginWrappers =
      os.pluginWrappers.map (fun plugin => { plugin with pool := env.fetch plugin symbols }) ∧
    ((∀ w ∈ (os.UpdatePrices env symbols).pluginWrappers, ∀ p : Price,
        GoMap.get? w.pool s = some p →
        ¬ (p.Timestamp ≤ env.now ∧ sub64 env.now p.Timestamp < ValidDataAge)) →
      GoMap.get? (os.UpdatePrices env symbols).prices s = GoMap.get? os.prices s) ∧
    (∀ (l1 l2 : List PluginWrapper) (w : PluginWrapper) (p : Price),
      s ∈ symbols →
      (os.UpdatePrices env symbols).pluginWrappers = l1 ++ w :: l2 →
      GoMap.get? w.pool s = some p →
      (p.Timestamp ≤ env.now ∧ sub64 env.now p.Timestamp < ValidDataAge) →
      (∀ w' ∈ l1 ++ l2, ∀ q : Price, GoMap.get? w'.pool s = some q →
        ¬ (q.Timestamp ≤ env.now ∧ sub64 env.now q.Timestamp < ValidDataAge)) →
      ∃ e : Price, GoMap.get? (os.UpdatePrices env symbols).prices s = some e ∧
        e.Price = p.Price ∧ e.Symbol = s) := by
  obtain ⟨hw, hg⟩ := OracleServer.foldl_updateOne env symbols
    { os with
      pluginWrappers :=
        os.pluginWrappers.map (fun plugin => { plugin with pool := env.fetch plugin symbols }) }
    s
  have hw' : (os.UpdatePrices env symbols).pluginWrappers =
      os.pluginWrappers.map (fun plugin => { plugin with pool := env.fetch plugin symbols }) := hw
  have hg' : GoMap.get? (os.UpdatePrices env symbols).prices s =
      if s ∈ symbols then
        (match OracleServer.aggregate env (os.UpdatePrices env symbols).pluginWrappers s with
          | some e => some e
          | none => GoMap.get? os.prices s)
      else GoMap.get? os.prices s := by
    rw [hw']
    exact hg
  refine ⟨hw', ?_, ?_⟩
  · intro hno
    rw [hg']
    have hagg : OracleServer.aggregate env (os.UpdatePrices env symbols).pluginWrappers s =
        none := by
      unfold OracleServer.aggregate
      rw [OracleServer.collectPrices_eq, OracleServer.filterMap_freshPrice_nil _ _ _ hno]
    rw [hagg]
    simp
  · intro l1 l2 w p hs hsplit hc hfresh hothers
    rw [hg', if_pos hs]
    have h1 : l1.filterMap (OracleServer.freshPrice env.now s) = [] :=
      OracleServer.filterMap_freshPrice_nil _ _ _
        (fun w' hw' => hothers w' (List.mem_append_left _ hw'))
    have h2 : l2.filterMap (OracleServer.freshPrice env.now s) = [] :=
      OracleServer.filterMap_freshPrice_nil _ _ _
        (fun w' hw' => hothers w' (List.mem_append_right _ hw'))
    have hv : OracleServer.isValid env.now p = true := (OracleServer.isValid_iff _ _).2 hfresh
    have hcol : OracleServer.collectPrices env.now
        (os.UpdatePrices env symbols).pluginWrappers s = [p.Price] := by
      rw [OracleServer.collectPrices_eq, hsplit, List.filterMap_append, List.filterMap_cons,
        h1, h2]
      simp [OracleServer.freshPrice, hc, hv]
    have hagg : OracleServer.aggregate env (os.UpdatePrices env symbols).pluginWrappers s =
        some { Timestamp := env.now, Price := p.Price, Symbol := s } := by
      unfold OracleServer.aggregate
      rw [hcol]
      simp
    rw [hagg]
    exact ⟨_, rfl, rfl, rfl⟩

/-- Witness of `UpdatePrices_spec`: with one plugin holding a fresh price for
`BTCUSD`, the cycle writes that price value into the cache. -/
theorem UpdatePrices_spec_witness :
    ∃ e : Price,
      GoMap.get? (OracleServer.UpdatePrices
        ⟨[], ["BTCUSD"], [⟨"binance", []⟩]⟩ sampleCollectEnv ["BTCUSD"]).prices "BTCUSD" =
        some e ∧ e.Price = samplePrice.Price ∧ e.Symbol = "BTCUSD" :=
  (UpdatePrices_spec ⟨[], ["BTCUSD"], [⟨"binance", []⟩]⟩ sampleCollectEnv ["BTCUSD"]
    "BTCUSD").2.2 [] [] ⟨"binance", [("BTCUSD", samplePrice)]⟩ samplePrice
    (by decide) (by decide) (by decide) (by decide)
    (fun _ hw => absurd hw (List.not_mem_nil _))

/-- C11 (counterexample): the only plugin holds a fresh price for `BTCUSD`
stamped 1000, the clock reads 2000, and the cycle writes an entry stamped 2000,
not 1000. -/
theorem UpdatePrices_timestamp_is_clock :
    OracleServer.freshestTimestamp sampleCollectEnv.now
      (OracleServer.UpdatePrices ⟨[], ["BTCUSD"], [⟨"binance", []⟩]⟩ sampleCollectEnv
        ["BTCUSD"]).pluginWrappers "BTCUSD" = some 1000 ∧
    GoMap.get? (OracleServer.UpdatePrices ⟨[], ["BTCUSD"], [⟨"binance", []⟩]⟩
      sampleCollectEnv ["BTCUSD"]).prices "BTCUSD" =
      some ⟨2000, ⟨30000, 0⟩, "BTCUSD"⟩ ∧
    ¬ ((2000 : Int) = 1000) := by
  decide

/-- C11 (amended): for every symbol `s` of the argument, whenever a collection
cycle `UpdatePrices` writes the cache entry for `s`, the timestamp of the
written entry is the clock reading `now` taken after the plugin fetches, which
is not earlier than the timestamp of any fresh per-plugin price for `s`; when
the cycle has nothing to write for `s` the cache entry for `s` is as before. -/
theorem UpdatePrices_timestamp (os : OracleServer) (env : CollectEnv)
    (symbols : List String) (s : String) (hs : s ∈ symbols) :
    (∀ e : Price,
      OracleServer.aggregate env (os.UpdatePrices env symbols).pluginWrappers s = some e →
      GoMap.get? (os.UpdatePrices env symbols).prices s = some e ∧
      e.Timestamp = env.now ∧
      (∀ w ∈ (os.UpdatePrices env symbols).pluginWrappers, ∀ p : Price,
        GoMap.get? w.pool s = some p → OracleServer.isValid env.now p = true →
        p.Timestamp ≤ e.Timestamp)) ∧
    (OracleServer.aggregate env (os.UpdatePrices env symbols).pluginWrappers s = none →
      GoMap.get? (os.UpdatePrices env symbols).prices s = GoMap.get? os.prices s) := by
  obtain ⟨hw, hg⟩ := OracleServer.foldl_updateOne env symbols
    { os with
      pluginWrappers :=
        os.pluginWrappers.map (fun plugin => { plugin with pool := env.fetch plugin symbols }) }
    s
  have hw' : (os.UpdatePrices env symbols).pluginWrappers =
      os.pluginWrappers.map (fun plugin => { plugin with pool := env.fetch plugin symbols }) := hw
  have hg' : GoMap.get? (os.UpdatePrices env symbols).prices s =
      (match OracleServer.aggregate env (os.UpdatePrices env symbols).pluginWrappers s with
        | some e => some e
        | none => GoMap.get? os.prices s) := by
    rw [hw']
    rw [if_pos hs] at hg
    exact hg
  constructor
  · intro e he
    rw [he] at hg'
    have ht : e.Timestamp = env.now := by
      unfold OracleServer.aggregate at he
      split at he
      · cases he
      · split at he
        · split at he
          · cases he
          · cases he; rfl
        · cases he; rfl
    refine ⟨hg', ht, ?_⟩
    intro w _ p _ hv
    rw [ht]
    exact ((OracleServer.isValid_iff env.now p).1 hv).1
  · intro hn
    rw [hn] at hg'
    exact hg'

/-- Witness of `UpdatePrices_timestamp`: the entry written for `BTCUSD` in the
sample cycle is stamped with the clock reading 2000. -/
theorem UpdatePrices_timestamp_witness :
    GoMap.get? (OracleServer.UpdatePrices ⟨[], ["BTCUSD"], [⟨"binance", []⟩]⟩
      sampleCollectEnv ["BTCUSD"]).prices "BTCUSD" =
      some ⟨2000, ⟨30000, 0⟩, "BTCUSD"⟩ ∧
    (⟨2000, ⟨30000, 0⟩, "BTCUSD"⟩ : Price).Timestamp = sampleCollectEnv.now :=
  ⟨((UpdatePrices_timestamp ⟨[], ["BTCUSD"], [⟨"binance", []⟩]⟩ sampleCollectEnv
      ["BTCUSD"] "BTCUSD" (by decide)).1 ⟨2000, ⟨30000, 0⟩, "BTCUSD"⟩ (by decide)).1,
   ((UpdatePrices_timestamp ⟨[], ["BTCUSD"], [⟨"binance", []⟩]⟩ sampleCollectEnv
      ["BTCUSD"] "BTCUSD" (by decide)).1 ⟨2000, ⟨30000, 0⟩, "BTCUSD"⟩ (by decide)).2.1⟩

/-! ## Facts about the price and byte encodings -/

theorem BigInt_mul_precision (d : Decimal) (h : 0 ≤ d.value) :
    (d.Mul PricePrecision).BigInt = scaledPrice d := by
  unfold Decimal.BigInt Decimal.Mul PricePrecision scaledPrice Decimal.toRat
  simp only [add_zero]
  by_cases he : 0 ≤ d.exp
  · rw [if_pos he]
    obtain ⟨n, hn⟩ := Int.eq_ofNat_of_zero_le he
    rw [hn, Int.toNat_ofNat, zpow_natCast]
    have : (d.value : ℚ) * (10 : ℚ) ^ n * 1000000000 =
        ((d.value * 1000000000 * 10 ^ n : ℤ) : ℚ) := by
      push_cast
      ring
    rw [this, Int.floor_intCast]
  · rw [if_neg he]
    have hneg : 0 ≤ -d.exp := by omega
    obtain ⟨k, hk⟩ := Int.eq_ofNat_of_zero_le hneg
    have hexp : d.exp = -(k : ℤ) := by omega
    rw [hk, Int.toNat_ofNat, hexp, zpow_neg, zpow_natCast]
    have : (d.value : ℚ) * ((10 : ℚ) ^ k)⁻¹ * 1000000000 =
        ((d.value * 1000000000 : ℤ) : ℚ) / ((10 ^ k : ℕ) : ℚ) := by
      push_cast
      field_simp
    rw [this, Rat.floor_intCast_div_natCast]
    rw [Int.tdiv_eq_ediv (by positivity) (by positivity)]
    push_cast
    rfl

theorem encodeBE_length (k n : Nat) : (encodeBE k n).length = k := by
  induction k generalizing n with
  | zero => rfl
  | succ k ih => simp [encodeBE, ih]

theorem encodeBE_zero (k : Nat) : encodeBE k 0 = List.replicate k 0 := by
  induction k with
  | zero => rfl
  | succ k ih =>
    simp only [encodeBE, Nat.zero_div, Nat.zero_mod, ih]
    exact (List.replicate_succ' ..).symm

theorem bytesBE_length_le (fuel n k : Nat) (h : n < 256 ^ k) :
    (bytesBE fuel n).length ≤ k := by
  induction fuel generalizing n k with
  | zero => simp [bytesBE]
  | succ fuel ih =>
    unfold bytesBE
    by_cases hn : n = 0
    · simp [hn]
    · rw [if_neg hn]
      cases k with
      | zero => simp at h; omega
      | succ k =>
        have : n / 256 < 256 ^ k := by
          rw [Nat.div_lt_iff_lt_mul (by norm_num)]
          rw [pow_succ] at h
          exact h
        have := ih (n / 256) k this
        simp only [List.length_append, List.length_singleton]
        omega

theorem LeftPadBytes_bytesBE (fuel n k : Nat) (hf : n ≤ fuel) (h : n < 256 ^ k) :
    LeftPadBytes (bytesBE fuel n) k = encodeBE k n := by
  induction fuel generalizing n k with
  | zero =>
    have hn : n = 0 := by omega
    subst hn
    simp [bytesBE, LeftPadBytes, encodeBE_zero]
  | succ fuel ih =>
    unfold bytesBE
    by_cases hn : n = 0
    · subst hn
      simp [LeftPadBytes, encodeBE_zero]
    · rw [if_neg hn]
      cases k with
      | zero => simp at h; omega
      | succ k =>
        have hlt : n / 256 < 256 ^ k := by
          rw [Nat.div_lt_iff_lt_mul (by norm_num)]
          rw [pow_succ] at h
          exact h
        have hfu : n / 256 ≤ fuel := by
          have : n / 256 < n := Nat.div_lt_self (by omega) (by norm_num)
          omega
        have hlen := bytesBE_length_le fuel (n / 256) k hlt
        have hrec := ih (n / 256) k hfu hlt
        unfold LeftPadBytes at hrec ⊢
        simp only [encodeBE, List.length_append, List.length_singleton]
        by_cases hk : k ≤ (bytesBE fuel (n / 256)).length
        · rw [if_pos hk] at hrec
          rw [if_pos (by omega), hrec]
        · rw [if_neg hk] at hrec
          rw [if_neg (by omega), ← hrec]
          have : k + 1 - ((bytesBE fuel (n / 256)).length + 1) =
              k - (bytesBE fuel (n / 256)).length := by omega
          rw [this, List.append_assoc]

theorem SetBytes_append (xs : List Nat) (b : Nat) :
    SetBytes (xs ++ [b]) = SetBytes xs * 256 + b := by
  simp [SetBytes, List.foldl_append]

/-- The fuel `bigBytes` passes is enough: the bytes denote the number. -/
theorem SetBytes_bytesBE (fuel n : Nat) (hf : n ≤ fuel) : SetBytes (bytesBE fuel n) = n := by
  induction fuel generalizing n with
  | zero =>
    have hn : n = 0 := by omega
    subst hn
    rfl
  | succ fuel ih =>
    unfold bytesBE
    by_cases hn : n = 0
    · subst hn
      rfl
    · rw [if_neg hn, SetBytes_append]
      have hfu : n / 256 ≤ fuel := by
        have : n / 256 < n := Nat.div_lt_self (by omega) (by norm_num)
        omega
      rw [ih _ hfu]
      omega

theorem SetBytes_bigBytes (x : Int) : SetBytes (bigBytes x) = x.natAbs :=
  SetBytes_bytesBE _ _ (le_refl _)

theorem LeftPadBytes_bigBytes (n : Nat) (h : n < 2 ^ 256) :
    LeftPadBytes (bigBytes (n : Int)) 32 = encodeBE 32 n := by
  unfold bigBytes
  rw [Int.natAbs_ofNat]
  exact LeftPadBytes_bytesBE n n 32 (le_refl n) (by simpa using h)

theorem scaledPrice_nonneg (d : Decimal) (h : 0 ≤ d.value) : 0 ≤ scaledPrice d := by
  unfold scaledPrice Decimal.toRat
  apply Int.floor_nonneg.2
  have h1 : (0 : ℚ) ≤ (d.value : ℚ) := Int.cast_nonneg.2 h
  have h2 : (0 : ℚ) ≤ (10 : ℚ) ^ d.exp := zpow_nonneg (by norm_num) _
  exact mul_nonneg (mul_nonneg h1 h2) (by norm_num)

namespace DataReporter

/-- The field the source packs for one symbol. -/
theorem packPrices_fold (prices : PriceBySymbol) (symbols : List String) (acc : List Nat) :
    symbols.foldl
      (fun source s =>
        match GoMap.get? prices s with
        | some pr => source ++ LeftPadBytes (bigBytes (pr.Price.Mul PricePrecision).BigInt) 32
        | none => source ++ LeftPadBytes (bigBytes 0) 32) acc =
      acc ++ (symbols.map (fun s =>
        match GoMap.get? prices s with
        | some pr => LeftPadBytes (bigBytes (pr.Price.Mul PricePrecision).BigInt) 32
        | none => LeftPadBytes (bigBytes 0) 32)).flatten := by
  induction symbols generalizing acc with
  | nil => simp
  | cons a L ih =>
    rw [List.foldl_cons, ih, List.map_cons, List.flatten_cons]
    cases GoMap.get? prices a <;> simp

theorem packPrices_eq_spec (symbols : List String) (prices : PriceBySymbol)
    (h : ∀ s ∈ symbols, ∀ p : Price, GoMap.get? prices s = some p →
      0 ≤ p.Price.value ∧ scaledPrice p.Price < 2 ^ 256) :
    packPrices symbols prices =
      (symbols.map (fun s =>
        match GoMap.get? prices s with
        | some p => encodeBE 32 (scaledPrice p.Price).toNat
        | none => List.replicate 32 0)).flatten := by
  unfold packPrices
  rw [packPrices_fold, List.nil_append]
  refine congrArg List.flatten ?_
  apply List.map_congr_left
  intro s hs
  cases hc : GoMap.get? prices s with
  | none => decide
  | some p =>
    obtain ⟨h0, hlt⟩ := h s hs p hc
    have hnn := scaledPrice_nonneg p.Price h0
    simp only
    rw [BigInt_mul_precision _ h0]
    have hcast : ((scaledPrice p.Price).toNat : Int) = scaledPrice p.Price :=
      Int.toNat_of_nonneg hnn
    rw [← hcast]
    have hb : (scaledPrice p.Price).toNat < 2 ^ 256 := by
      have : ((scaledPrice p.Price).toNat : Int) < 2 ^ 256 := by rw [hcast]; exact hlt
      exact_mod_cast this
    rw [LeftPadBytes_bigBytes _ hb, Int.toNat_ofNat]

theorem revealVotes_fold (prices : PriceBySymbol) (symbols : List String) (acc : List Int) :
    symbols.foldl
      (fun votes s =>
        match GoMap.get? prices s with
        | none => votes ++ [0]
        | some p => votes ++ [(p.Price.Mul PricePrecision).BigInt]) acc =
      acc ++ symbols.map (fun s =>
        match GoMap.get? prices s with
        | none => 0
        | some p => (p.Price.Mul PricePrecision).BigInt) := by
  induction symbols generalizing acc with
  | nil => simp
  | cons a L ih =>
    rw [List.foldl_cons, ih, List.map_cons]
    cases GoMap.get? prices a <;> simp

theorem revealVotes_length (D : RoundData) : (revealVotes D).length = D.Symbols.length := by
  unfold revealVotes
  rw [revealVotes_fold]
  simp

theorem revealVotes_eq_spec (D : RoundData)
    (h : ∀ s ∈ D.Symbols, ∀ p : Price, GoMap.get? D.Prices s = some p → 0 ≤ p.Price.value) :
    revealVotes D = specVotes D.Symbols D.Prices := by
  unfold revealVotes specVotes
  rw [revealVotes_fold, List.nil_append]
  apply List.map_congr_left
  intro s hs
  cases hc : GoMap.get? D.Prices s with
  | none => rfl
  | some p => exact BigInt_mul_precision _ (h s hs p hc)

theorem commitmentPreimage_length (symbols : List String) (prices : PriceBySymbol)
    (salt : Nat) :
    (commitmentPreimage symbols prices salt).length = 32 * (symbols.length + 1) := by
  unfold commitmentPreimage
  rw [List.length_append, encodeBE_length, List.length_flatten, List.map_map]
  have : (List.map (List.length ∘ fun s =>
      match GoMap.get? prices s with
      | some p => encodeBE 32 (scaledPrice p.Price).toNat
      | none => List.replicate 32 0) symbols) = symbols.map (fun _ => 32) := by
    apply List.map_congr_left
    intro s _
    simp only [Function.comp]
    cases GoMap.get? prices s <;> simp [encodeBE_length]
  rw [this]
  simp
  ring

theorem buildRoundData_ok (env : ChainEnv) (os : OracleServer) (rd : RoundData)
    (h : buildRoundData env os = .ok rd) :
    ∃ symbols, env.getSymbols = .ok symbols ∧
      GoMap.len (os.GetPricesBySymbols env.nowMilli symbols).1 ≠ 0 ∧
      rd = { Symbols := symbols, Salt := env.randUint64 % 2 ^ 64,
             Hash := env.keccak256
               (packPrices symbols (os.GetPricesBySymbols env.nowMilli symbols).1 ++
                 LeftPadBytes (bigBytes ((env.randUint64 % 2 ^ 64 : Nat) : Int)) 32),
             Prices := (os.GetPricesBySymbols env.nowMilli symbols).1, Tx := none } := by
  unfold buildRoundData at h
  cases hs : env.getSymbols with
  | error e => rw [hs] at h; cases h
  | ok symbols =>
    rw [hs] at h
    simp only at h
    by_cases hl : GoMap.len (os.GetPricesBySymbols env.nowMilli symbols).1 = 0
    · rw [if_pos hl] at h; cases h
    · rw [if_neg hl] at h
      injection h with h
      exact ⟨symbols, rfl, hl, h.symm⟩

end DataReporter

theorem samplePrice_fits :
    0 ≤ samplePrice.Price.value ∧ scaledPrice samplePrice.Price < 2 ^ 256 := by
  refine ⟨by decide, ?_⟩
  rw [← BigInt_mul_precision _ (by decide)]
  show (30000000000000 : Int) < 2 ^ 256
  norm_num

theorem sample_prices_fit (symbols : List String) :
    ∀ s ∈ symbols, ∀ p : Price, GoMap.get? [("BTCUSD", samplePrice)] s = some p →
      0 ≤ p.Price.value ∧ scaledPrice p.Price < 2 ^ 256 := by
  intro s _ p hc
  by_cases hs : "BTCUSD" = s
  · simp [GoMap.get?, hs] at hc
    rw [← hc]
    exact samplePrice_fits
  · simp [GoMap.get?, hs] at hc

theorem GoMap.eq_nil_of_get? {κ ν : Type} [DecidableEq κ] (m : GoMap κ ν)
    (h : ∀ k, GoMap.get? m k = none) : m = [] := by
  cases m with
  | nil => rfl
  | cons e rest =>
    obtain ⟨k, v⟩ := e
    have := h k
    simp [GoMap.get?] at this

theorem GoMap.len_ne_zero_of_get? {κ ν : Type} [DecidableEq κ] (m : GoMap κ ν) (k : κ)
    (v : ν) (h : GoMap.get? m k = some v) : GoMap.len m ≠ 0 := by
  cases m with
  | nil => simp [GoMap.get?] at h
  | cons e rest => simp [GoMap.len]

namespace DataReporter

/-- The two ways `doReport` ends: before any call when the transaction options
cannot be prepared, and with a single `Vote` call otherwise. -/
theorem doReport_cases (dp : DataReporter) (env : ChainEnv) (hash : Hash)
    (last : Option RoundData) :
    (∃ e, prepareAuth dp env = .error e ∧ doReport dp env hash last = (.error e, [])) ∨
    (∃ auth, prepareAuth dp env = .ok auth ∧
      doReport dp env hash last =
        (env.vote ⟨auth, SetBytes hash, (Option.map revealVotes last).getD [],
            Option.map RoundData.Salt last⟩,
          [⟨auth, SetBytes hash, (Option.map revealVotes last).getD [],
            Option.map RoundData.Salt last⟩])) := by
  cases ha : prepareAuth dp env with
  | error e => exact Or.inl ⟨e, rfl, by simp [doReport, ha]⟩
  | ok auth =>
    refine Or.inr ⟨auth, rfl, ?_⟩
    cases last <;> simp [doReport, ha]

theorem doReport_currentRound (dp : DataReporter) (env : ChainEnv) (hash : Hash)
    (last : Option RoundData) (r : Nat) :
    doReport { dp with currentRound := r } env hash last = doReport dp env hash last := rfl

theorem buildRoundData_of_price (env : ChainEnv) (os : OracleServer) (symbols : List String)
    (hsym : env.getSymbols = .ok symbols)
    (hprice : ∃ s p, GoMap.get? (os.GetPricesBySymbols env.nowMilli symbols).1 s = some p) :
    ∃ rd, buildRoundData env os = .ok rd ∧ rd.Symbols = symbols ∧
      rd.Prices = (os.GetPricesBySymbols env.nowMilli symbols).1 ∧
      rd.Salt = env.randUint64 % 2 ^ 64 := by
  obtain ⟨s, p, hp⟩ := hprice
  have hl := GoMap.len_ne_zero_of_get? _ s p hp
  have hb : buildRoundData env os =
      .ok { Symbols := symbols, Salt := env.randUint64 % 2 ^ 64,
            Hash := env.keccak256
              (packPrices symbols (os.GetPricesBySymbols env.nowMilli symbols).1 ++
                LeftPadBytes (bigBytes ((env.randUint64 % 2 ^ 64 : Nat) : Int)) 32),
            Prices := (os.GetPricesBySymbols env.nowMilli symbols).1, Tx := none } := by
    unfold buildRoundData
    rw [hsym]
    simp only
    rw [if_neg hl]
  exact ⟨_, hb, rfl, rfl, rfl⟩

theorem buildRoundData_no_price (env : ChainEnv) (os : OracleServer) (symbols : List String)
    (hsym : env.getSymbols = .ok symbols)
    (hno : ∀ s ∈ symbols, GoMap.get? (os.GetPricesBySymbols env.nowMilli symbols).1 s = none) :
    buildRoundData env os = .error Err.ErrNoAvailablePrice := by
  have hnil : (os.GetPricesBySymbols env.nowMilli symbols).1 = [] := by
    apply GoMap.eq_nil_of_get?
    intro k
    by_cases hk : k ∈ symbols
    · exact hno k hk
    · rw [OracleServer.GetPricesBySymbols_get?, if_neg hk]
  unfold buildRoundData
  rw [hsym]
  simp only
  rw [hnil]
  rfl

/-- The handler once the node is known not to be syncing and the committee
is known. -/
theorem handleRoundChangeEvent_reporting (dp : DataReporter) (env : ChainEnv)
    (os : OracleServer) (r : Nat) (b : Bool)
    (hsync : env.syncProgress = .ok none) (hcom : isCommitteeMember dp env = .ok b) :
    handleRoundChangeEvent dp env os r =
      if !b && (GoMap.get? dp.roundData (usub64 r 1)).isNone then
        ⟨{ dp with currentRound := r }, none, []⟩
      else if b then
        reportWithCommitment { dp with currentRound := r } env os r
          (GoMap.get? dp.roundData (usub64 r 1))
      else
        reportWithoutCommitment { dp with currentRound := r } env
          (GoMap.get? dp.roundData (usub64 r 1)) := by
  have hcom' : isCommitteeMember { dp with currentRound := r } env = .ok b := hcom
  unfold handleRoundChangeEvent
  simp only [hsync, hcom']

end DataReporter

/-! ## Checked properties of the reporter -/

/-- C1: for every round data `rd` built by `buildRoundData` whose prices are
non-negative with `price × 10⁹ < 2^256`, the hash of `rd` is Keccak-256 of the
preimage made, for each symbol of the round in order, of the 32-byte big-endian
encoding of `price × 10⁹` when the symbol has a price in the snapshot and of 32
zero bytes when it has none, followed by the 32-byte big-endian encoding of the
salt; the preimage is `32 * (number of symbols + 1)` bytes long; and the entry
`reportWithCommitment` stores in the round buffer is `rd` with only the
transaction filled in. -/
theorem buildRoundData_commitment (env : ChainEnv) (os : OracleServer) (rd : RoundData)
    (hb : DataReporter.buildRoundData env os = .ok rd)
    (hp : ∀ s ∈ rd.Symbols, ∀ p : Price, GoMap.get? rd.Prices s = some p →
      0 ≤ p.Price.value ∧ scaledPrice p.Price < 2 ^ 256) :
    rd.Hash = env.keccak256 (commitmentPreimage rd.Symbols rd.Prices rd.Salt) ∧
    (commitmentPreimage rd.Symbols rd.Prices rd.Salt).length =
      32 * (rd.Symbols.length + 1) ∧
    (∀ (dp : DataReporter) (r : Nat) (last : Option RoundData),
      (DataReporter.reportWithCommitment dp env os r last).err = none →
      ∃ tx : Tx,
        GoMap.get? (DataReporter.reportWithCommitment dp env os r last).dp.roundData r =
          some { rd with Tx := some tx }) := by
  obtain ⟨symbols, _, _, hrd⟩ := DataReporter.buildRoundData_ok env os rd hb
  refine ⟨?_, DataReporter.commitmentPreimage_length _ _ _, ?_⟩
  · subst hrd
    simp only at hp ⊢
    unfold commitmentPreimage
    rw [DataReporter.packPrices_eq_spec _ _ hp]
    have hsalt : env.randUint64 % 2 ^ 64 < 2 ^ 256 :=
      lt_trans (Nat.mod_lt _ (by norm_num)) (by norm_num)
    rw [LeftPadBytes_bigBytes _ hsalt]
  · intro dp r last herr
    unfold DataReporter.reportWithCommitment at herr ⊢
    rw [hb] at herr ⊢
    simp only at herr ⊢
    rcases hd : DataReporter.doReport dp env rd.Hash last with ⟨res, calls⟩
    rw [hd] at herr
    cases res with
    | error e => simp at herr
    | ok tx => exact ⟨tx, GoMap.get?_set_self _ _ _⟩

/-- Witness of `buildRoundData_commitment`: the round data built from the
sample cache, with its 96-byte preimage. -/
theorem buildRoundData_commitment_witness :
    (⟨["BTCUSD", "ETHUSD"], 12345, [96], [("BTCUSD", samplePrice)], none⟩ : RoundData).Hash =
      sampleEnv.keccak256
        (commitmentPreimage ["BTCUSD", "ETHUSD"] [("BTCUSD", samplePrice)] 12345) ∧
    (commitmentPreimage ["BTCUSD", "ETHUSD"] [("BTCUSD", samplePrice)] 12345).length =
      32 * ((["BTCUSD", "ETHUSD"] : List String).length + 1) :=
  ⟨(buildRoundData_commitment sampleEnv sampleOracle
      ⟨["BTCUSD", "ETHUSD"], 12345, [96], [("BTCUSD", samplePrice)], none⟩
      rfl (sample_prices_fit _)).1,
   (buildRoundData_commitment sampleEnv sampleOracle
      ⟨["BTCUSD", "ETHUSD"], 12345, [96], [("BTCUSD", samplePrice)], none⟩
      rfl (sample_prices_fit _)).2.1⟩

/-- C2: for every previous-round data `D` with non-negative prices handed to
`doReport`, each vote submitted carries one entry per symbol of `D.Symbols`, in
order, `floor(price × 10⁹)` for a symbol with a price in `D.Prices` and 0 for a
symbol with none, together with the salt `D.Salt`; when the previous-round data
is absent the vote carries no votes, no salt, and only the commitment hash; the
vote is submitted once the transaction options are ready, and not otherwise. -/
theorem doReport_votes (dp : DataReporter) (env : ChainEnv) (hash : Hash) (D : RoundData)
    (hnn : ∀ s ∈ D.Symbols, ∀ p : Price, GoMap.get? D.Prices s = some p →
      0 ≤ p.Price.value) :
    (∀ c ∈ (DataReporter.doReport dp env hash (some D)).2,
      c.votes = specVotes D.Symbols D.Prices ∧ c.votes.length = D.Symbols.length ∧
      c.salt = some D.Salt ∧ c.commitmentHash = SetBytes hash) ∧
    (∀ c ∈ (DataReporter.doReport dp env hash none).2,
      c.votes = [] ∧ c.salt = none ∧ c.commitmentHash = SetBytes hash) ∧
    (∀ auth : TransactOpts, DataReporter.prepareAuth dp env = .ok auth →
      DataReporter.doReport dp env hash (some D) =
        (env.vote ⟨auth, SetBytes hash, specVotes D.Symbols D.Prices, some D.Salt⟩,
          [⟨auth, SetBytes hash, specVotes D.Symbols D.Prices, some D.Salt⟩]) ∧
      DataReporter.doReport dp env hash none =
        (env.vote ⟨auth, SetBytes hash, [], none⟩, [⟨auth, SetBytes hash, [], none⟩])) ∧
    (∀ e : Err, DataReporter.prepareAuth dp env = .error e →
      DataReporter.doReport dp env hash (some D) = (.error e, []) ∧
      DataReporter.doReport dp env hash none = (.error e, [])) := by
  have hv := DataReporter.revealVotes_eq_spec D hnn
  have hl := DataReporter.revealVotes_length D
  cases ha : DataReporter.prepareAuth dp env with
  | error e =>
    refine ⟨?_, ?_, ?_, ?_⟩
    · intro c hc
      simp [DataReporter.doReport, ha] at hc
    · intro c hc
      simp [DataReporter.doReport, ha] at hc
    · intro auth h
      cases h
    · intro e' h
      cases h
      simp [DataReporter.doReport, ha]
  | ok auth =>
    refine ⟨?_, ?_, ?_, ?_⟩
    · intro c hc
      simp only [DataReporter.doReport, ha, List.mem_singleton] at hc
      subst hc
      exact ⟨hv, hl, rfl, rfl⟩
    · intro c hc
      simp only [DataReporter.doReport, ha, List.mem_singleton] at hc
      subst hc
      exact ⟨rfl, rfl, rfl⟩
    · intro auth' h
      cases h
      simp only [DataReporter.doReport, ha, hv, and_self]
    · intro e h
      cases h

/-- Witness of `doReport_votes`: revealing `sampleRound` submits the votes
`[30000000000000, 0]` with salt 5. -/
theorem doReport_votes_witness :
    DataReporter.doReport sampleReporter sampleEnv zeroHash (some sampleRound) =
      (sampleEnv.vote ⟨⟨4, 0, 3000000, 1000⟩, SetBytes zeroHash,
          specVotes sampleRound.Symbols sampleRound.Prices, some sampleRound.Salt⟩,
        [⟨⟨4, 0, 3000000, 1000⟩, SetBytes zeroHash,
          specVotes sampleRound.Symbols sampleRound.Prices, some sampleRound.Salt⟩]) :=
  ((doReport_votes sampleReporter sampleEnv zeroHash sampleRound
    (fun s hs p hc => (sample_prices_fit sampleRound.Symbols s hs p hc).1)).2.2.1
    ⟨4, 0, 3000000, 1000⟩ rfl).1

/-- C3 (counterexample): the node is not syncing, validator 7 is in the
committee and the cache yields a price for the contract's symbols, yet the
pending-nonce read fails and no vote transaction is submitted. -/
theorem handleRoundChangeEvent_committee_nonce_failure :
    nonceFailEnv.syncProgress = .ok none ∧
    DataReporter.isCommitteeMember sampleReporter nonceFailEnv = .ok true ∧
    GoMap.get? (sampleOracle.GetPricesBySymbols nonceFailEnv.nowMilli
      ["BTCUSD", "ETHUSD"]).1 "BTCUSD" = some samplePrice ∧
    (DataReporter.handleRoundChangeEvent sampleReporter nonceFailEnv sampleOracle 8).calls =
      [] ∧
    ¬ (DataReporter.handleRoundChangeEvent sampleReporter nonceFailEnv sampleOracle
        8).calls.length = 1 :=
  ⟨rfl, rfl, by decide, by decide, by decide⟩

/-- C3 (amended): when the node is not syncing, the validator is a committee
member and `GetPricesBySymbols` returns at least one price for the contract's
symbols, `handleRoundChangeEvent r` builds the round data `rd` of round `r` and
submits at most one vote transaction: exactly one when the transaction options
(pending nonce, gas price, chain id, transactor) are prepared, none when their
preparation fails, in which case the error is returned. Every submitted vote
carries the commitment hash of `rd` with the votes and salt of `RoundData[r-1]`
(no votes and no salt when it is absent). `rd`, with the returned transaction,
is stored under `r` exactly when the submission succeeds; when an error is
returned the buffer is left unchanged. -/
theorem handleRoundChangeEvent_committee (dp : DataReporter) (env : ChainEnv)
    (os : OracleServer) (r : Nat) (symbols : List String) (out : Outcome)
    (hout : out = DataReporter.handleRoundChangeEvent dp env os r)
    (hsync : env.syncProgress = .ok none)
    (hcom : DataReporter.isCommitteeMember dp env = .ok true)
    (hsym : env.getSymbols = .ok symbols)
    (hprice : ∃ s p, GoMap.get? (os.GetPricesBySymbols env.nowMilli symbols).1 s = some p) :
    ∃ rd : RoundData,
      DataReporter.buildRoundData env os = .ok rd ∧ rd.Symbols = symbols ∧
      rd.Prices = (os.GetPricesBySymbols env.nowMilli symbols).1 ∧
      (∀ c ∈ out.calls,
        c.commitmentHash = SetBytes rd.Hash ∧
        c.votes = (Option.map DataReporter.revealVotes
          (GoMap.get? dp.roundData (usub64 r 1))).getD [] ∧
        c.salt = Option.map RoundData.Salt (GoMap.get? dp.roundData (usub64 r 1))) ∧
      (∀ auth : TransactOpts, DataReporter.prepareAuth dp env = .ok auth →
        out.calls.length = 1) ∧
      (∀ e : Err, DataReporter.prepareAuth dp env = .error e →
        out.calls = [] ∧ out.err = some e) ∧
      (out.err = none → ∃ (c : VoteCall) (tx : Tx), out.calls = [c] ∧ env.vote c = .ok tx ∧
        out.dp.roundData = GoMap.set dp.roundData r { rd with Tx := some tx }) ∧
      (∀ c ∈ out.calls, ∀ tx : Tx, env.vote c = .ok tx → out.err = none) ∧
      (out.err ≠ none → out.dp.roundData = dp.roundData) := by
  obtain ⟨rd, hb, h1, h2, _⟩ := DataReporter.buildRoundData_of_price env os symbols hsym hprice
  refine ⟨rd, hb, h1, h2, ?_⟩
  rw [DataReporter.handleRoundChangeEvent_reporting dp env os r true hsync hcom] at hout
  simp only [Bool.not_true, Bool.false_and, Bool.false_eq_true, if_false, if_true] at hout
  unfold DataReporter.reportWithCommitment at hout
  rw [hb] at hout
  simp only [DataReporter.doReport_currentRound] at hout
  rcases DataReporter.doReport_cases dp env rd.Hash (GoMap.get? dp.roundData (usub64 r 1))
    with ⟨e, ha, hd⟩ | ⟨auth, ha, hd⟩
  · rw [hd] at hout
    simp only at hout
    subst hout
    refine ⟨?_, ?_, ?_, ?_, ?_, ?_⟩
    · intro c hc; cases hc
    · intro auth h; rw [ha] at h; cases h
    · intro e' h; rw [ha] at h; cases h; exact ⟨rfl, rfl⟩
    · intro h; cases h
    · intro c hc; cases hc
    · intro _; rfl
  · rw [hd] at hout
    cases hv : env.vote ⟨auth, SetBytes rd.Hash,
        (Option.map DataReporter.revealVotes (GoMap.get? dp.roundData (usub64 r 1))).getD [],
        Option.map RoundData.Salt (GoMap.get? dp.roundData (usub64 r 1))⟩ with
    | error e =>
      rw [hv] at hout
      simp only at hout
      subst hout
      refine ⟨?_, ?_, ?_, ?_, ?_, ?_⟩
      · intro c hc
        rw [List.mem_singleton.1 hc]
        exact ⟨rfl, rfl, rfl⟩
      · intro _ _; rfl
      · intro e' h; rw [ha] at h; cases h
      · intro h; cases h
      · intro c hc tx hok
        rw [List.mem_singleton.1 hc, hv] at hok
        cases hok
      · intro _; rfl
    | ok tx =>
      rw [hv] at hout
      simp only at hout
      subst hout
      refine ⟨?_, ?_, ?_, ?_, ?_, ?_⟩
      · intro c hc
        rw [List.mem_singleton.1 hc]
        exact ⟨rfl, rfl, rfl⟩
      · intro _ _; rfl
      · intro e' h; rw [ha] at h; cases h
      · intro _; exact ⟨_, tx, rfl, hv, rfl⟩
      · intro _ _ _ _; rfl
      · intro h; exact absurd rfl h

/-- Witness of `handleRoundChangeEvent_committee`: with every chain call
succeeding, round 8 is committed, round 7 is revealed in one vote, and the data
of round 8 is stored with transaction 99. -/
theorem handleRoundChangeEvent_committee_witness :
    ∃ rd : RoundData,
      DataReporter.buildRoundData sampleEnv sampleOracle = .ok rd ∧
      (DataReporter.handleRoundChangeEvent sampleReporter sampleEnv sampleOracle
        8).calls.length = 1 ∧
      ∃ (c : VoteCall) (tx : Tx),
        (DataReporter.handleRoundChangeEvent sampleReporter sampleEnv sampleOracle 8).calls =
          [c] ∧ sampleEnv.vote c = .ok tx ∧
        (DataReporter.handleRoundChangeEvent sampleReporter sampleEnv sampleOracle
          8).dp.roundData = GoMap.set sampleReporter.roundData 8 { rd with Tx := some tx } :=
  match handleRoundChangeEvent_committee sampleReporter sampleEnv sampleOracle 8
      ["BTCUSD", "ETHUSD"] _ rfl rfl rfl rfl ⟨"BTCUSD", samplePrice, by decide⟩ with
  | ⟨rd, hb, _, _, _, hone, _, hstore, _, _⟩ =>
    ⟨rd, hb, hone ⟨4, 0, 3000000, 1000⟩ rfl, hstore (by decide)⟩

/-- C4 (counterexample): the node is not syncing, validator 7 is not in the
committee and `RoundData[7]` is present, yet the pending-nonce read fails and
no vote transaction is submitted for round 8. -/
theorem handleRoundChangeEvent_outsider_nonce_failure :
    outsiderNonceFailEnv.syncProgress = .ok none ∧
    DataReporter.isCommitteeMember sampleReporter outsiderNonceFailEnv = .ok false ∧
    GoMap.get? sampleReporter.roundData (usub64 8 1) = some sampleRound ∧
    (DataReporter.handleRoundChangeEvent sampleReporter outsiderNonceFailEnv sampleOracle
      8).calls = [] ∧
    ¬ (DataReporter.handleRoundChangeEvent sampleReporter outsiderNonceFailEnv sampleOracle
        8).calls.length = 1 :=
  ⟨rfl, rfl, by decide, by decide, by decide⟩

/-- C4 (amended): when the node is not syncing and the validator is not a
committee member, `handleRoundChangeEvent r` leaves the round buffer unchanged
(no `RoundData[r]` is stored). If `RoundData[r-1]` is absent it submits no
transaction and returns no error. If `RoundData[r-1]` is present it submits at
most one vote transaction, exactly one when the transaction options are
prepared and none when their preparation fails (the error is then returned);
every submitted vote carries commitment hash 0 with the votes and salt of
round `r-1`. -/
theorem handleRoundChangeEvent_outsider (dp : DataReporter) (env : ChainEnv)
    (os : OracleServer) (r : Nat) (out : Outcome)
    (hout : out = DataReporter.handleRoundChangeEvent dp env os r)
    (hsync : env.syncProgress = .ok none)
    (hcom : DataReporter.isCommitteeMember dp env = .ok false) :
    out.dp.roundData = dp.roundData ∧
    (GoMap.get? dp.roundData (usub64 r 1) = none → out.calls = [] ∧ out.err = none) ∧
    (∀ D : RoundData, GoMap.get? dp.roundData (usub64 r 1) = some D →
      (∀ c ∈ out.calls,
        c.commitmentHash = 0 ∧ c.votes = DataReporter.revealVotes D ∧
        c.salt = some D.Salt) ∧
      (∀ auth : TransactOpts, DataReporter.prepareAuth dp env = .ok auth →
        out.calls.length = 1) ∧
      (∀ e : Err, DataReporter.prepareAuth dp env = .error e →
        out.calls = [] ∧ out.err = some e)) := by
  rw [DataReporter.handleRoundChangeEvent_reporting dp env os r false hsync hcom] at hout
  simp only [Bool.not_false, Bool.true_and, Bool.false_eq_true, if_false] at hout
  cases hl : GoMap.get? dp.roundData (usub64 r 1) with
  | none =>
    rw [hl] at hout
    simp only [Option.isNone_none, if_true] at hout
    subst hout
    refine ⟨rfl, fun _ => ⟨rfl, rfl⟩, ?_⟩
    intro D h
    cases h
  | some D =>
    rw [hl] at hout
    simp only [Option.isNone_some, Bool.false_eq_true, if_false] at hout
    unfold DataReporter.reportWithoutCommitment at hout
    simp only [DataReporter.doReport_currentRound] at hout
    rcases DataReporter.doReport_cases dp env zeroHash (some D)
      with ⟨e, ha, hd⟩ | ⟨auth, ha, hd⟩
    · rw [hd] at hout
      simp only at hout
      subst hout
      refine ⟨rfl, (fun h => by cases h), ?_⟩
      intro D' hD'
      refine ⟨?_, ?_, ?_⟩
      · intro c hc; cases hc
      · intro auth h; rw [ha] at h; cases h
      · intro e' h; rw [ha] at h; cases h; exact ⟨rfl, rfl⟩
    · rw [hd] at hout
      have hzero : SetBytes zeroHash = 0 := by decide
      cases hv : env.vote ⟨auth, SetBytes zeroHash,
          (Option.map DataReporter.revealVotes (some D)).getD [],
          Option.map RoundData.Salt (some D)⟩ with
      | error e =>
        rw [hv] at hout
        simp only at hout
        subst hout
        refine ⟨rfl, (fun h => by cases h), ?_⟩
        intro D' hD'
        cases hD'
        refine ⟨?_, ?_, ?_⟩
        · intro c hc
          rw [List.mem_singleton.1 hc]
          exact ⟨hzero, rfl, rfl⟩
        · intro _ _; rfl
        · intro e' h; rw [ha] at h; cases h
      | ok tx =>
        rw [hv] at hout
        simp only at hout
        subst hout
        refine ⟨rfl, (fun h => by cases h), ?_⟩
        intro D' hD'
        cases hD'
        refine ⟨?_, ?_, ?_⟩
        · intro c hc
          rw [List.mem_singleton.1 hc]
          exact ⟨hzero, rfl, rfl⟩
        · intro _ _; rfl
        · intro e' h; rw [ha] at h; cases h

/-- Witness of `handleRoundChangeEvent_outsider`: outside the committee with
round 7 buffered, round 8 reveals round 7 in one vote and stores nothing. -/
theorem handleRoundChangeEvent_outsider_witness :
    (DataReporter.handleRoundChangeEvent sampleReporter outsiderEnv sampleOracle
      8).dp.roundData = sampleReporter.roundData ∧
    (DataReporter.handleRoundChangeEvent sampleReporter outsiderEnv sampleOracle
      8).calls.length = 1 :=
  ⟨(handleRoundChangeEvent_outsider sampleReporter outsiderEnv sampleOracle 8 _ rfl rfl
      rfl).1,
   ((handleRoundChangeEvent_outsider sampleReporter outsiderEnv sampleOracle 8 _ rfl rfl
      rfl).2.2 sampleRound (by decide)).2.1 ⟨4, 0, 3000000, 1000⟩ rfl⟩

/-- C5 (counterexample): a reporter at round 7 that handles the event of round
8 while the node is syncing ends at round 8, so its state has changed. -/
theorem handleRoundChangeEvent_syncing_moves_round :
    syncingEnv.syncProgress = .ok (some 1) ∧
    sampleReporter.currentRound = 7 ∧
    (DataReporter.handleRoundChangeEvent sampleReporter syncingEnv sampleOracle
      8).dp.currentRound = 8 ∧
    (DataReporter.handleRoundChangeEvent sampleReporter syncingEnv sampleOracle 8).dp ≠
      sampleReporter :=
  ⟨rfl, rfl, by decide, by decide⟩

/-- C5 (amended): when `SyncProgress` reports that the node is still syncing,
`handleRoundChangeEvent r` submits no transaction, returns `ErrPeerOnSync`,
leaves the round buffer and the current symbol list unchanged, and sets the
current round to `r`. -/
theorem handleRoundChangeEvent_syncing (dp : DataReporter) (env : ChainEnv)
    (os : OracleServer) (r : Nat) (progress : Nat)
    (hsync : env.syncProgress = .ok (some progress)) :
    (DataReporter.handleRoundChangeEvent dp env os r).calls = [] ∧
    (DataReporter.handleRoundChangeEvent dp env os r).err = some Err.ErrPeerOnSync ∧
    (DataReporter.handleRoundChangeEvent dp env os r).dp.roundData = dp.roundData ∧
    (DataReporter.handleRoundChangeEvent dp env os r).dp.currentSymbols = dp.currentSymbols ∧
    (DataReporter.handleRoundChangeEvent dp env os r).dp.currentRound = r := by
  simp [DataReporter.handleRoundChangeEvent, hsync]

/-- Witness of `handleRoundChangeEvent_syncing`: the sample reporter under a
syncing node. -/
theorem handleRoundChangeEvent_syncing_witness :
    (DataReporter.handleRoundChangeEvent sampleReporter syncingEnv sampleOracle 8).calls =
      [] ∧
    (DataReporter.handleRoundChangeEvent sampleReporter syncingEnv sampleOracle 8).err =
      some Err.ErrPeerOnSync :=
  ⟨(handleRoundChangeEvent_syncing sampleReporter syncingEnv sampleOracle 8 1 rfl).1,
   (handleRoundChangeEvent_syncing sampleReporter syncingEnv sampleOracle 8 1 rfl).2.1⟩

/-- C6: when the node is not syncing, the validator is a committee member and
`GetPricesBySymbols` returns no price for any of the contract's symbols,
`handleRoundChangeEvent r` returns `ErrNoAvailablePrice`, submits no
transaction (whether or not `RoundData[r-1]` is present), and leaves the round
buffer unchanged. -/
theorem handleRoundChangeEvent_no_price (dp : DataReporter) (env : ChainEnv)
    (os : OracleServer) (r : Nat) (symbols : List String)
    (hsync : env.syncProgress = .ok none)
    (hcom : DataReporter.isCommitteeMember dp env = .ok true)
    (hsym : env.getSymbols = .ok symbols)
    (hno : ∀ s ∈ symbols,
      GoMap.get? (os.GetPricesBySymbols env.nowMilli symbols).1 s = none) :
    (DataReporter.handleRoundChangeEvent dp env os r).err = some Err.ErrNoAvailablePrice ∧
    (DataReporter.handleRoundChangeEvent dp env os r).calls = [] ∧
    (DataReporter.handleRoundChangeEvent dp env os r).dp.roundData = dp.roundData := by
  rw [DataReporter.handleRoundChangeEvent_reporting dp env os r true hsync hcom]
  simp only [Bool.not_true, Bool.false_and, Bool.false_eq_true, if_false, if_true]
  unfold DataReporter.reportWithCommitment
  rw [DataReporter.buildRoundData_no_price env os symbols hsym hno]
  exact ⟨rfl, rfl, rfl⟩

/-- Witness of `handleRoundChangeEvent_no_price`: a committee member with round
7 buffered and an empty price cache submits nothing for round 8. -/
theorem handleRoundChangeEvent_no_price_witness :
    GoMap.get? sampleReporter.roundData (usub64 8 1) = some sampleRound ∧
    (DataReporter.handleRoundChangeEvent sampleReporter sampleEnv emptyOracle 8).err =
      some Err.ErrNoAvailablePrice ∧
    (DataReporter.handleRoundChangeEvent sampleReporter sampleEnv emptyOracle 8).calls = [] ∧
    (DataReporter.handleRoundChangeEvent sampleReporter sampleEnv emptyOracle
      8).dp.roundData = sampleReporter.roundData :=
  ⟨by decide,
   handleRoundChangeEvent_no_price sampleReporter sampleEnv emptyOracle 8
     ["BTCUSD", "ETHUSD"] rfl rfl rfl (by decide)⟩

/-! ## Facts about garbage collection and the event loop -/

theorem usub64_of_le (a b : Nat) (hb : b ≤ a) (ha : a < 2 ^ 64) : usub64 a b = a - b := by
  unfold usub64
  have hb' : b % 2 ^ 64 = b := Nat.mod_eq_of_lt (by omega)
  rw [hb']
  have : a + (2 ^ 64 - b) = (a - b) + 2 ^ 64 := by omega
  rw [this, Nat.add_mod_right]
  exact Nat.mod_eq_of_lt (by omega)

theorem usub64_of_lt (a b : Nat) (hb : a < b) (hb' : b < 2 ^ 64) :
    usub64 a b = a + 2 ^ 64 - b := by
  unfold usub64
  rw [Nat.mod_eq_of_lt hb']
  have : a + (2 ^ 64 - b) = a + 2 ^ 64 - b := by omega
  rw [this]
  exact Nat.mod_eq_of_lt (by omega)

namespace DataReporter

/-- Visiting the keys `L` and deleting those at most `off` keeps exactly the
entries whose key is above `off` or not in `L`. -/
theorem gc_fold (off : Nat) (L : List Nat) (m : GoMap Nat RoundData) :
    L.foldl (fun m k => if k ≤ off then GoMap.delete m k else m) m =
      m.filter (fun e => !(decide (e.1 ≤ off) && decide (e.1 ∈ L))) := by
  induction L generalizing m with
  | nil => simp
  | cons a L ih =>
    rw [List.foldl_cons, ih]
    by_cases ha : a ≤ off
    · rw [if_pos ha]
      unfold GoMap.delete
      rw [List.filter_filter]
      apply List.filter_congr
      intro e _
      by_cases hea : e.1 = a
      · simp [hea, ha]
      · simp [hea]
    · rw [if_neg ha]
      apply List.filter_congr
      intro e _
      by_cases hea : e.1 = a
      · simp [hea, ha]
      · simp [hea]

theorem gcRoundData_roundData (dp : DataReporter) :
    dp.gcRoundData.roundData =
      if MaxBufferedRounds ≤ GoMap.len dp.roundData then
        dp.roundData.filter (fun e => decide (usub64 dp.currentRound MaxBufferedRounds < e.1))
      else dp.roundData := by
  unfold gcRoundData
  by_cases h : GoMap.len dp.roundData ≥ MaxBufferedRounds
  · rw [if_pos h, if_pos h]
    simp only [gc_fold]
    apply List.filter_congr
    intro e he
    have hmem : e.1 ∈ dp.roundData.map Prod.fst := List.mem_map_of_mem _ he
    by_cases hle : e.1 ≤ usub64 dp.currentRound MaxBufferedRounds
    · have : ¬ usub64 dp.currentRound MaxBufferedRounds < e.1 := by omega
      simp [hle, hmem, this]
    · have : usub64 dp.currentRound MaxBufferedRounds < e.1 := by omega
      simp [hle, this]
  · rw [if_neg h, if_neg h]

theorem gcRoundData_currentRound (dp : DataReporter) :
    dp.gcRoundData.currentRound = dp.currentRound := by
  unfold gcRoundData
  split <;> rfl

theorem gcRoundData_of_small (dp : DataReporter)
    (h : GoMap.len dp.roundData < MaxBufferedRounds) : dp.gcRoundData = dp := by
  unfold gcRoundData
  rw [if_neg (by omega)]

/-- After a collection that finds the buffer full, every entry left has its
key above `currentRound - MaxBufferedRounds`. -/
theorem gcRoundData_retained (dp : DataReporter) (hcur : dp.currentRound < 2 ^ 64)
    (hfull : MaxBufferedRounds ≤ GoMap.len dp.roundData) :
    ∀ e ∈ dp.gcRoundData.roundData, dp.currentRound + 1 ≤ e.1 + MaxBufferedRounds := by
  intro e he
  rw [gcRoundData_roundData, if_pos hfull] at he
  have hlt : usub64 dp.currentRound MaxBufferedRounds < e.1 := by
    simpa using (List.mem_filter.1 he).2
  unfold MaxBufferedRounds at hlt ⊢
  by_cases h10 : 10 ≤ dp.currentRound
  · rw [usub64_of_le _ _ h10 hcur] at hlt
    omega
  · rw [usub64_of_lt _ _ (by omega) (by norm_num)] at hlt
    omega

end DataReporter

theorem GoMap.set_keys_nodup {ν : Type} (m : GoMap Nat ν) (k : Nat) (v : ν)
    (h : (m.map Prod.fst).Nodup) : ((GoMap.set m k v).map Prod.fst).Nodup := by
  unfold GoMap.set GoMap.delete
  rw [List.map_cons, List.nodup_cons]
  constructor
  · intro hk
    obtain ⟨e, he, hek⟩ := List.mem_map.1 hk
    have := (List.mem_filter.1 he).2
    simp at this
    exact this hek
  · exact h.sublist ((List.filter_sublist m).map Prod.fst)

theorem GoMap.len_set_le {ν : Type} (m : GoMap Nat ν) (k : Nat) (v : ν) :
    GoMap.len (GoMap.set m k v) ≤ GoMap.len m + 1 := by
  unfold GoMap.set GoMap.delete GoMap.len
  rw [List.length_cons]
  exact Nat.succ_le_succ (List.length_filter_le _ _)

theorem GoMap.mem_set {ν : Type} (m : GoMap Nat ν) (k : Nat) (v : ν) (e : Nat × ν)
    (h : e ∈ GoMap.set m k v) : e.1 = k ∨ e ∈ m := by
  unfold GoMap.set GoMap.delete at h
  rcases List.mem_cons.1 h with h | h
  · exact Or.inl (by rw [h])
  · exact Or.inr (List.mem_filter.1 h).1

theorem nodup_window_length (l : List Nat) (c : Nat) (hn : l.Nodup)
    (h : ∀ k ∈ l, c + 1 ≤ k + 10 ∧ k ≤ c) : l.length ≤ 10 := by
  have hsub : l.toFinset ⊆ Finset.Icc (c + 1 - 10) c := by
    intro k hk
    have := h k (List.mem_toFinset.1 hk)
    rw [Finset.mem_Icc]
    omega
  have hcard := Finset.card_le_card hsub
  rw [List.toFinset_card_of_nodup hn, Nat.card_Icc] at hcard
  omega

namespace DataReporter

/-- The handler sets the current round and either leaves the buffer alone or
stores one entry under the new round. -/
theorem handleRoundChangeEvent_dp (dp : DataReporter) (env : ChainEnv) (os : OracleServer)
    (r : Nat) :
    (handleRoundChangeEvent dp env os r).dp.currentRound = r ∧
    ((handleRoundChangeEvent dp env os r).dp.roundData = dp.roundData ∨
      ∃ rd, (handleRoundChangeEvent dp env os r).dp.roundData = GoMap.set dp.roundData r rd) := by
  unfold handleRoundChangeEvent
  cases env.syncProgress with
  | error e => exact ⟨rfl, Or.inl rfl⟩
  | ok sync =>
    cases sync with
    | some x => exact ⟨rfl, Or.inl rfl⟩
    | none =>
      simp only
      cases isCommitteeMember { dp with currentRound := r } env with
      | error e => exact ⟨rfl, Or.inl rfl⟩
      | ok b =>
        simp only
        split
        · exact ⟨rfl, Or.inl rfl⟩
        · split
          · unfold reportWithCommitment
            cases buildRoundData env os with
            | error e => exact ⟨rfl, Or.inl rfl⟩
            | ok rd =>
              simp only
              rcases doReport { dp with currentRound := r } env rd.Hash
                (GoMap.get? dp.roundData (usub64 r 1)) with ⟨res, calls⟩
              cases res with
              | error e => exact ⟨rfl, Or.inl rfl⟩
              | ok tx => exact ⟨rfl, Or.inr ⟨_, rfl⟩⟩
          · unfold reportWithoutCommitment
            rcases doReport { dp with currentRound := r } env zeroHash
              (GoMap.get? dp.roundData (usub64 r 1)) with ⟨res, calls⟩
            cases res with
            | error e => exact ⟨rfl, Or.inl rfl⟩
            | ok tx => exact ⟨rfl, Or.inl rfl⟩

theorem getStartingStates_round_lt (env : HealthEnv) : (getStartingStates env).1 < 2 ^ 64 := by
  unfold getStartingStates
  cases env.getRound with
  | error e => simp
  | ok c =>
    cases env.getSymbols with
    | error e => simp
    | ok syms => exact Nat.mod_lt _ (by norm_num)

/-- A health check leaves the buffer alone and keeps the current round a
`uint64`. -/
theorem checkHealth_dp (dp : DataReporter) (os : OracleServer) (env : HealthEnv) :
    (checkHealth dp os env).1.roundData = dp.roundData ∧
    (dp.currentRound < 2 ^ 64 → (checkHealth dp os env).1.currentRound < 2 ^ 64) := by
  have hs := getStartingStates_round_lt env
  unfold checkHealth
  cases env.blockNumber with
  | ok n => exact ⟨rfl, fun h => h⟩
  | error e =>
    simp only
    unfold buildConnection
    cases env.dial with
    | error e => exact ⟨rfl, fun h => h⟩
    | ok _ =>
      cases env.newOracle with
      | error e => exact ⟨rfl, fun h => h⟩
      | ok _ =>
        simp only
        cases (getStartingStates env).2.2 with
        | some e => exact ⟨rfl, fun _ => hs⟩
        | none =>
          simp only
          cases env.watchUpdatedRound with
          | error e => exact ⟨rfl, fun _ => hs⟩
          | ok _ =>
            cases env.watchUpdatedSymbols with
            | error e => exact ⟨rfl, fun _ => hs⟩
            | ok _ => exact ⟨rfl, fun _ => hs⟩

/-- Garbage collection of an ordered buffer leaves an ordered buffer of at
most `MaxBufferedRounds` entries. -/
theorem gcRoundData_inOrder (dp : DataReporter) (h : bufferInOrder dp) :
    bufferInOrder dp.gcRoundData ∧ GoMap.len dp.gcRoundData.roundData ≤ MaxBufferedRounds := by
  obtain ⟨hn, hle, hcur⟩ := h
  by_cases hfull : MaxBufferedRounds ≤ GoMap.len dp.roundData
  · have hret := gcRoundData_retained dp hcur hfull
    have hrd := gcRoundData_roundData dp
    rw [if_pos hfull] at hrd
    have hmem : ∀ e ∈ dp.gcRoundData.roundData, e ∈ dp.roundData := by
      intro e he
      rw [hrd] at he
      exact (List.mem_filter.1 he).1
    have hn' : (dp.gcRoundData.roundData.map Prod.fst).Nodup := by
      rw [hrd]
      exact hn.sublist ((List.filter_sublist _).map Prod.fst)
    refine ⟨⟨hn', ?_, ?_⟩, ?_⟩
    · intro e he
      rw [gcRoundData_currentRound]
      exact hle e (hmem e he)
    · rw [gcRoundData_currentRound]
      exact hcur
    · have := nodup_window_length _ dp.currentRound hn' (by
        intro k hk
        obtain ⟨e, he, hek⟩ := List.mem_map.1 hk
        have h1 := hret e he
        have h2 := hle e (hmem e he)
        unfold MaxBufferedRounds at h1
        rw [← hek]
        exact ⟨h1, h2⟩)
      rw [List.length_map] at this
      exact this
  · have hsmall : GoMap.len dp.roundData < MaxBufferedRounds := by omega
    rw [gcRoundData_of_small dp hsmall]
    exact ⟨⟨hn, hle, hcur⟩, by omega⟩

end DataReporter

/-- One turn of the loop keeps the buffer ordered when the round does not go
back; a round event adds at most one entry, a live tick leaves at most
`MaxBufferedRounds`, any other event leaves the buffer as it is. -/
theorem step_inOrder (dp : DataReporter) (e : Event) (h : bufferInOrder dp)
    (hadv : dp.currentRound ≤ (step dp e).currentRound) :
    bufferInOrder (step dp e) ∧
    (match e with
      | .roundEvent _ _ _ => GoMap.len (step dp e).roundData ≤ GoMap.len dp.roundData + 1
      | .liveTick _ _ => GoMap.len (step dp e).roundData ≤ MaxBufferedRounds
      | _ => GoMap.len (step dp e).roundData = GoMap.len dp.roundData) := by
  obtain ⟨hn, hle, hcur⟩ := h
  cases e with
  | subSymbolsErr => exact ⟨⟨hn, hle, hcur⟩, rfl⟩
  | subRoundErr => exact ⟨⟨hn, hle, hcur⟩, rfl⟩
  | symbolsEvent symbols os => exact ⟨⟨hn, hle, hcur⟩, rfl⟩
  | roundEvent round env os =>
    obtain ⟨hr, hd⟩ := DataReporter.handleRoundChangeEvent_dp dp env os (round % 2 ^ 64)
    have hadv' : dp.currentRound ≤ round % 2 ^ 64 := by
      have : (step dp (Event.roundEvent round env os)).currentRound = round % 2 ^ 64 := hr
      rw [this] at hadv
      exact hadv
    have hlt : round % 2 ^ 64 < 2 ^ 64 := Nat.mod_lt _ (by norm_num)
    show bufferInOrder (dp.handleRoundChangeEvent env os (round % 2 ^ 64)).dp ∧
      GoMap.len (dp.handleRoundChangeEvent env os (round % 2 ^ 64)).dp.roundData ≤
        GoMap.len dp.roundData + 1
    unfold bufferInOrder
    rw [hr]
    rcases hd with hd | ⟨rd, hd⟩
    · rw [hd]
      exact ⟨⟨hn, fun e he => le_trans (hle e he) hadv', hlt⟩, Nat.le_succ _⟩
    · rw [hd]
      refine ⟨⟨GoMap.set_keys_nodup _ _ _ hn, ?_, hlt⟩, GoMap.len_set_le _ _ _⟩
      intro e he
      rcases GoMap.mem_set _ _ _ _ he with h1 | h1
      · rw [h1]
      · exact le_trans (hle e h1) hadv'
  | liveTick env os =>
    obtain ⟨hrd, hlt⟩ := DataReporter.checkHealth_dp dp os env
    have hadv' : dp.currentRound ≤ (dp.checkHealth os env).1.currentRound := by
      have : (step dp (Event.liveTick env os)).currentRound =
          (dp.checkHealth os env).1.currentRound :=
        DataReporter.gcRoundData_currentRound _
      rw [this] at hadv
      exact hadv
    have hin : bufferInOrder (dp.checkHealth os env).1 := by
      unfold bufferInOrder
      rw [hrd]
      exact ⟨hn, fun e he => le_trans (hle e he) hadv', hlt hcur⟩
    exact DataReporter.gcRoundData_inOrder _ hin

theorem run_bound_aux (events : List Event) (dp : DataReporter) (k0 : Nat)
    (h : bufferInOrder dp) (hlen : GoMap.len dp.roundData ≤ MaxBufferedRounds + k0)
    (hadv : roundsAdvance dp events) :
    GoMap.len (run dp events).roundData ≤
      MaxBufferedRounds + events.foldl
        (fun k e =>
          match e with
          | .roundEvent _ _ _ => k + 1
          | .liveTick _ _ => 0
          | _ => k)
        k0 := by
  induction events generalizing dp k0 with
  | nil => exact hlen
  | cons e es ih =>
    obtain ⟨hadv1, hadv2⟩ := hadv
    obtain ⟨hin, hstep⟩ := step_inOrder dp e h hadv1
    unfold run
    rw [List.foldl_cons, List.foldl_cons]
    cases e with
    | subSymbolsErr =>
      exact ih _ k0 hin (by simp only at hstep; rw [hstep]; exact hlen) hadv2
    | subRoundErr =>
      exact ih _ k0 hin (by simp only at hstep; rw [hstep]; exact hlen) hadv2
    | symbolsEvent symbols os =>
      exact ih _ k0 hin (by simp only at hstep; rw [hstep]; exact hlen) hadv2
    | roundEvent round env os =>
      exact ih _ (k0 + 1) hin (by simp only at hstep; omega) hadv2
    | liveTick env os =>
      exact ih _ 0 hin (by simp only at hstep; omega) hadv2

/-- C12 (counterexample): from an empty buffer, eleven round events handled
with no live tick between them leave eleven entries, more than
`MaxBufferedRounds`; and with a live tick after every round event, a validator
that commits in round 1 and is outside the committee in rounds 2 to 12 still
holds the entry of round 1 after the collection of round 12, although
`1 < 12 - MaxBufferedRounds + 1`. -/
theorem run_exceeds_bound :
    startReporter.roundData = [] ∧
    GoMap.len (run startReporter (committeeRun 11)).roundData = 11 ∧
    MaxBufferedRounds < GoMap.len (run startReporter (committeeRun 11)).roundData ∧
    (run startReporter outsiderRun).currentRound = 12 ∧
    (run startReporter outsiderRun).roundData.map Prod.fst = [1] ∧
    (run startReporter outsiderRun).gcRoundData.roundData.map Prod.fst = [1] ∧
    1 < 12 - MaxBufferedRounds + 1 := by
  set_option maxRecDepth 100000 in decide

/-- The bound on the buffer needs rounds that do not go back: with
the rounds 20 down to 10 handled as a committee member, a live tick after each,
eleven entries are left after the last collection. -/
theorem run_rounds_going_back :
    GoMap.len (run startReporter
      ((List.range 11).map (fun i =>
        [Event.roundEvent (20 - i) sampleEnv sampleOracle,
          Event.liveTick healthyEnv sampleOracle])).flatten).roundData = 11 := by
  set_option maxRecDepth 100000 in decide

/-- C12 (amended): in every state reached from an empty round buffer by the
steps of the reporter's event loop (round-update events handled by
`handleRoundChangeEvent`, symbol events, live ticks that run `checkHealth` and
`gcRoundData`) along which the current round never goes back, the round buffer
holds at most `MaxBufferedRounds` entries plus one for each round-update event
handled since the last live tick, garbage collection running on live ticks
only; after a run of `gcRoundData` that finds at least `MaxBufferedRounds`
entries every retained key is at least `currentRound - MaxBufferedRounds + 1`;
a run that finds fewer entries changes nothing. -/
theorem roundBuffer_bound (dp : DataReporter) (events : List Event)
    (hempty : dp.roundData = []) (hcur : dp.currentRound < 2 ^ 64)
    (hadv : roundsAdvance dp events) :
    GoMap.len (run dp events).roundData ≤ MaxBufferedRounds + sinceTick events ∧
    (∀ d : DataReporter, d.currentRound < 2 ^ 64 →
      MaxBufferedRounds ≤ GoMap.len d.roundData →
      ∀ e ∈ d.gcRoundData.roundData, d.currentRound + 1 ≤ e.1 + MaxBufferedRounds) ∧
    (∀ d : DataReporter, GoMap.len d.roundData < MaxBufferedRounds → d.gcRoundData = d) := by
  refine ⟨?_, DataReporter.gcRoundData_retained, DataReporter.gcRoundData_of_small⟩
  have hin : bufferInOrder dp := by
    unfold bufferInOrder
    rw [hempty]
    exact ⟨List.nodup_nil, fun e he => absurd he (List.not_mem_nil _), hcur⟩
  have hlen : GoMap.len dp.roundData ≤ MaxBufferedRounds + 0 := by
    rw [hempty]
    exact Nat.zero_le _
  exact run_bound_aux events dp 0 hin hlen hadv

/-- Witness of `roundBuffer_bound`: round 1 handled as a committee member and
then a live tick, from the empty buffer of `startReporter`. -/
theorem roundBuffer_bound_witness :
    GoMap.len (run startReporter
      [Event.roundEvent 1 sampleEnv sampleOracle,
        Event.liveTick healthyEnv sampleOracle]).roundData ≤
      MaxBufferedRounds +
        sinceTick [Event.roundEvent 1 sampleEnv sampleOracle,
          Event.liveTick healthyEnv sampleOracle] :=
  (roundBuffer_bound startReporter
    [Event.roundEvent 1 sampleEnv sampleOracle, Event.liveTick healthyEnv sampleOracle]
    rfl (by decide) ⟨by decide, by decide, trivial⟩).1

/-- With `MaxBufferedRounds <= currentRound` the subtraction does not wrap:
`gcRoundData` evicts an entry only if its key is at most
`currentRound - MaxBufferedRounds`, so the entries of the current round and of
the round before it are kept. -/
theorem gcRoundData_evicts_old (d : DataReporter) (h10 : MaxBufferedRounds ≤ d.currentRound)
    (hcur : d.currentRound < 2 ^ 64) :
    (∀ e ∈ d.roundData, e ∉ d.gcRoundData.roundData →
      e.1 + MaxBufferedRounds ≤ d.currentRound) ∧
    (∀ e ∈ d.roundData, d.currentRound ≤ e.1 + 1 → e ∈ d.gcRoundData.roundData) := by
  have key : ∀ e ∈ d.roundData, e ∉ d.gcRoundData.roundData →
      e.1 + MaxBufferedRounds ≤ d.currentRound := by
    intro e he hne
    rw [DataReporter.gcRoundData_roundData] at hne
    by_cases hfull : MaxBufferedRounds ≤ GoMap.len d.roundData
    · rw [if_pos hfull] at hne
      have hnot : ¬ usub64 d.currentRound MaxBufferedRounds < e.1 := by
        intro hlt
        exact hne (List.mem_filter.2 ⟨he, by simpa using hlt⟩)
      rw [usub64_of_le _ _ h10 hcur] at hnot
      omega
    · rw [if_neg hfull] at hne
      exact absurd he hne
  refine ⟨key, ?_⟩
  intro e he hnear
  by_contra hne
  have := key e he hne
  unfold MaxBufferedRounds at this
  omega

/-- C13 (the code at the failing input): with the ten rounds 0 to 9 buffered
and `currentRound = 9`, the `uint64` subtraction `9 - MaxBufferedRounds` wraps
to `2^64 - 1` and `gcRoundData` evicts every entry, the ones of rounds 9 and 8
included; likewise a live tick whose reconnection fails to read the round sets
the current round to 0 and the collection that follows empties a buffer holding
rounds 1 to 10. -/
theorem gcRoundData_wraps_below_ten :
    usub64 9 MaxBufferedRounds = 2 ^ 64 - 1 ∧
    GoMap.len (fullBuffer 0) = 10 ∧
    GoMap.get? (fullBuffer 0) 9 = some sampleRound ∧
    GoMap.get? (fullBuffer 0) 8 = some sampleRound ∧
    (DataReporter.gcRoundData ⟨9, [], fullBuffer 0, 7, 7⟩).roundData = [] ∧
    step ⟨10, [], fullBuffer 1, 7, 7⟩ (Event.liveTick lostRoundEnv sampleOracle) =
      ⟨0, [], [], 7, 7⟩ := by
  decide

end AutonityOracle
